import Mathlib

set_option maxHeartbeats 1000000

/-!
Verification of the canhazgpu k8s node agent against its specification.

Part A embeds the GPU Allocation Coordinator: the Redis-backed ledger client
(ReserveGPUsForClaim / ReleaseGPUsForClaim / GetAvailableGPUs, from
pkg/redisstate) and the node agent HTTP handlers (handleAllocate /
handleDeallocate, from driver/dra/nodeagent/agent.go).  The Redis store is
modelled as typed key families: the cluster-managed (k8s) per-GPU state blobs,
the host-managed per-GPU state blobs, the per-claim GPU-id sets and the
per-claim-per-GPU reservation metadata.  The key-prefix constant itself lives
in an upstream package outside these sources; following the spec data model
the two ownership domains are kept as two separate key families, written to
and read exactly where the source writes and reads them.  Ledger operations
are assumed to succeed (store reachability failures are a separate error
class in the spec).  time.Time is modelled as a Nat tick count.

Part B embeds the cache plan reconciler (driver/dra/nodeagent/cache.go).
-/

namespace Canhazgpu

/-- Per-GPU state blob stored in the ledger (types.GPUState as used by the
sources: User, Type, StartTime, LastHeartbeat, LastReleased; the empty string
is the Go zero value for User and Type). -/
structure GPUState where
  user : String := ""
  type : String := ""
  startTime : Nat := 0
  lastHeartbeat : Nat := 0
  lastReleased : Nat := 0
deriving DecidableEq, Repr

/-- Per-claim-per-GPU reservation metadata (redisstate.ReservationInfo). -/
structure ReservationInfo where
  claimUID : String
  podName : String
  nspace : String
  reservedAt : Nat
deriving DecidableEq, Repr

/-- Pointwise update of a Nat-keyed map. -/
def updNat {β : Type} (f : Nat → β) (k : Nat) (v : β) : Nat → β :=
  fun i => if i = k then v else f i

/-- Pointwise update of a String-keyed map. -/
def updStr {β : Type} (f : String → β) (k : String) (v : β) : String → β :=
  fun s => if s = k then v else f s

/-- The ledger: GPU pool size plus the four key families the sources touch.
A missing key is `none` (for the state blobs and metadata) or `[]` (for the
claim GPU-id sets: Redis SMEMBERS of a missing key is the empty set). -/
structure Ledger where
  gpuCount : Nat
  k8sGpu : Nat → Option GPUState
  hostGpu : Nat → Option GPUState
  claimGpus : String → List Nat
  claimInfo : String → Nat → Option ReservationInfo

/-- Availability test GetAvailableGPUs applies to one domain's entry: the key
is absent, or the stored blob has empty User and empty Type. -/
def gpuEntryAvailable : Option GPUState → Bool
  | none => true
  | some s => s.user == "" && s.type == ""

/-- GetAvailableGPUs (redisstate client): scans ids 0..gpuCount-1 in order and
keeps those available in both the k8s domain and the host domain.  The source
only issues reads here. -/
def GetAvailableGPUs (l : Ledger) : List Nat :=
  (List.range l.gpuCount).filter
    (fun i => gpuEntryAvailable (l.k8sGpu i) && gpuEntryAvailable (l.hostGpu i))

/-- Wrapper recording that GetAvailableGPUs leaves the ledger untouched (the
source performs only GET operations against the store). -/
def GetAvailableGPUsOp (l : Ledger) : List Nat × Ledger :=
  (GetAvailableGPUs l, l)

/-- The state blob ReserveGPUsForClaim writes for each reserved GPU:
User = "k8s:" + claimUID, Type = "k8s", both timestamps set to now. -/
def reservedState (claimUID : String) (now : Nat) : GPUState :=
  { user := "k8s:" ++ claimUID, type := "k8s", startTime := now,
    lastHeartbeat := now, lastReleased := 0 }

/-- The state blob ReleaseGPUsForClaim writes back: only LastReleased set,
all other fields at their Go zero value (so the slot reads as available). -/
def releasedState (now : Nat) : GPUState :=
  { user := "", type := "", startTime := 0, lastHeartbeat := 0,
    lastReleased := now }

/-- Redis SADD: add each element not already present, preserving set
semantics (membership is what the sources consume via SMEMBERS). -/
def sAdd (s : List Nat) (xs : List Nat) : List Nat :=
  xs.foldl (fun acc x => if x ∈ acc then acc else acc ++ [x]) s

/-- The per-GPU write loop of ReserveGPUsForClaim: for each id, SET the k8s
state blob to the reserved state and SET the per-claim metadata. -/
def reserveWrites (now : Nat) (claimUID podName nspace : String)
    (l : Ledger) (gpuIDs : List Nat) : Ledger :=
  gpuIDs.foldl (fun acc gpuID =>
    { acc with
      k8sGpu := updNat acc.k8sGpu gpuID (some (reservedState claimUID now)),
      claimInfo := updStr acc.claimInfo claimUID
        (updNat (acc.claimInfo claimUID) gpuID
          (some { claimUID := claimUID, podName := podName, nspace := nspace,
                  reservedAt := now })) }) l

/-- ReserveGPUsForClaim (redisstate client): write the per-GPU records, then
SADD all ids to the claim's GPU-id set.  No availability check happens here;
that is the caller's (handleAllocate's) job. -/
def ReserveGPUsForClaim (l : Ledger) (now : Nat) (gpuIDs : List Nat)
    (claimUID podName nspace : String) : Ledger :=
  let l1 := reserveWrites now claimUID podName nspace l gpuIDs
  { l1 with claimGpus := updStr l1.claimGpus claimUID (sAdd (l1.claimGpus claimUID) gpuIDs) }

/-- The per-GPU write loop of ReleaseGPUsForClaim: for each id in the claim's
set, SET the k8s state blob to the released (cleared) state and DEL the
per-claim metadata. -/
def releaseWrites (now : Nat) (claimUID : String)
    (l : Ledger) (gpuIDs : List Nat) : Ledger :=
  gpuIDs.foldl (fun acc gpuID =>
    { acc with
      k8sGpu := updNat acc.k8sGpu gpuID (some (releasedState now)),
      claimInfo := updStr acc.claimInfo claimUID
        (updNat (acc.claimInfo claimUID) gpuID none) }) l

/-- ReleaseGPUsForClaim (redisstate client): read the claim's GPU-id set,
clear each listed GPU and its metadata, then DEL the set key.  Releasing a
claim with no set is a no-op on the per-GPU records. -/
def ReleaseGPUsForClaim (l : Ledger) (now : Nat) (claimUID : String) : Ledger :=
  let ids := l.claimGpus claimUID
  let l1 := releaseWrites now claimUID l ids
  { l1 with claimGpus := updStr l1.claimGpus claimUID [] }

/-- Allocation HTTP request body (api.AllocationRequest).  GPU ids arrive as
decimal strings in the source and are parsed with Atoi before use; they are
carried here already parsed. -/
structure AllocationRequest where
  claimUID : String
  gpuCount : Nat
  gpuIDs : List Nat
  nspace : String
  podName : String
deriving DecidableEq, Repr

/-- Allocation HTTP response body (api.AllocationResponse); absent fields are
Go zero values. -/
structure AllocationResponse where
  success : Bool
  allocatedGPUs : List Nat
  nodeName : String
  error : String
deriving DecidableEq, Repr

/-- handleAllocate (nodeagent/agent.go): read the available list once; with
explicit ids, verify each against that list and fail on the first id not
found, reserving nothing; otherwise take the first gpuCount available ids,
failing if fewer are available; then perform the reservation writes. -/
def handleAllocate (l : Ledger) (now : Nat) (nodeName : String)
    (req : AllocationRequest) : AllocationResponse × Ledger :=
  let avail := GetAvailableGPUs l
  if req.gpuIDs.isEmpty then
    if avail.length < req.gpuCount then
      ({ success := false, allocatedGPUs := [], nodeName := "",
         error := "Not enough available GPUs: requested " ++
           toString req.gpuCount ++ ", available " ++ toString avail.length },
       l)
    else
      let selected := avail.take req.gpuCount
      ({ success := true, allocatedGPUs := selected, nodeName := nodeName,
         error := "" },
       ReserveGPUsForClaim l now selected req.claimUID req.podName req.nspace)
  else
    match req.gpuIDs.find? (fun id => !(avail.contains id)) with
    | some badId =>
      ({ success := false, allocatedGPUs := [], nodeName := "",
         error := "GPU " ++ toString badId ++ " is not available" }, l)
    | none =>
      ({ success := true, allocatedGPUs := req.gpuIDs, nodeName := nodeName,
         error := "" },
       ReserveGPUsForClaim l now req.gpuIDs req.claimUID req.podName req.nspace)

/-- handleDeallocate (nodeagent/agent.go): release every GPU recorded for the
claim. -/
def handleDeallocate (l : Ledger) (now : Nat) (claimUID : String) : Ledger :=
  ReleaseGPUsForClaim l now claimUID

/-- One serialized request against the node agent. -/
inductive AgentOp where
  | allocate (now : Nat) (req : AllocationRequest)
  | deallocate (now : Nat) (claimUID : String)

/-- Ledger effect of one serialized request. -/
def stepOp (l : Ledger) : AgentOp → Ledger
  | .allocate now req => (handleAllocate l now "node" req).2
  | .deallocate now claimUID => handleDeallocate l now claimUID

/-- Ledger reached after a serialized request sequence. -/
def runOps (l : Ledger) (ops : List AgentOp) : Ledger :=
  ops.foldl stepOp l

/-- Initialized pool of n GPUs with no reservations in either domain. -/
def initLedger (n : Nat) : Ledger :=
  { gpuCount := n, k8sGpu := fun _ => none, hostGpu := fun _ => none,
    claimGpus := fun _ => [], claimInfo := fun _ _ => none }

/-- Bidirectional-consistency invariant: every GPU id in a claim's ownership
set is owned, in the cluster domain, by exactly that claim. -/
def LedgerInv (l : Ledger) : Prop :=
  ∀ c g, g ∈ l.claimGpus c →
    ∃ s, l.k8sGpu g = some s ∧ s.user = "k8s:" ++ c

/-- Spec-side reading of an available slot in one domain: no record at all,
or a record whose owner (User) and Type fields are both empty. -/
def domainUnowned (e : Option GPUState) : Prop :=
  e = none ∨ ∃ s, e = some s ∧ s.user = "" ∧ s.type = ""

/-- Concrete request fixture: claim "a" asks explicitly for GPU 0. -/
def wReqA : AllocationRequest :=
  { claimUID := "a", gpuCount := 0, gpuIDs := [0], nspace := "ns", podName := "p" }

/-- Concrete request fixture: claim "b" asks explicitly for GPU 1. -/
def wReqB : AllocationRequest :=
  { claimUID := "b", gpuCount := 0, gpuIDs := [1], nspace := "ns", podName := "p" }

/-- Concrete request fixture: claim "c" asks explicitly for GPU 3. -/
def wReq3 : AllocationRequest :=
  { claimUID := "c", gpuCount := 0, gpuIDs := [3], nspace := "ns", podName := "p" }

/-- Concrete serialized request sequence used by witness theorems. -/
def wOps : List AgentOp := [.allocate 0 wReqA, .allocate 1 wReqB]

/-- Status entry the reconciler keeps for one cache item (the
map[string]interface struct built in cache.go; image entries carry no branch,
git-repo entries carry one). -/
structure ItemStatus where
  ref : String
  name : String
  branch : Option String
  present : Bool
  status : String
  message : String
deriving DecidableEq, Repr

/-- One external tool invocation performed during reconciliation. -/
inductive ToolCall where
  | crictlPull (ref : String)
  | gitFetch (dir branch : String)
  | gitReset (dir branch : String)
  | gitPull (dir branch : String)
  | gitClone (url branch dir : String)
  | removeDir (dir : String)
deriving DecidableEq, Repr

/-- Outcome oracle for the external world: whether each tool invocation would
succeed, what error text a failed tool prints, and the state of the cache
directory.  hasGit records whether (dir)/.git exists; cloneGitRepo itself
never consults it (it stats only the directory), it is carried so claims
about the marker can be stated.  On a directory without the marker the
in-place git operations fail, which the oracle of a concrete scenario must
reflect. -/
structure ToolEnv where
  pullOk : String → Bool
  pullErr : String → String
  dirExists : String → Bool
  hasGit : String → Bool
  fetchOk : String → String → Bool
  resetOk : String → String → Bool
  gitPullOk : String → String → Bool
  cloneOk : String → String → Bool
  cloneErr : String → String

/-- The fixed node-local cache directory. -/
def cacheDir : String := "/var/lib/canhazgpu-cache"

/-- Directory a repo item is cloned into (cacheDir/name). -/
def repoDir (name : String) : String := cacheDir ++ "/" ++ name

/-- cloneGitRepo (cache.go): if the target directory exists, update in place
(force: fetch then hard-reset; otherwise plain pull), deleting the directory
and falling back to a fresh shallow clone when the in-place update fails;
if the directory does not exist, fresh shallow clone directly.  Returns
overall success plus the tool invocations performed, in order.  The git
availability probe (git --version) is assumed to succeed. -/
def cloneGitRepo (env : ToolEnv) (gitURL branch name : String)
    (force : Bool) : Bool × List ToolCall :=
  let dir := repoDir name
  if env.dirExists dir then
    if force then
      if env.fetchOk dir branch then
        if env.resetOk dir branch then
          (true, [.gitFetch dir branch, .gitReset dir branch])
        else
          (env.cloneOk gitURL branch,
           [.gitFetch dir branch, .gitReset dir branch, .removeDir dir,
            .gitClone gitURL branch dir])
      else
        (env.cloneOk gitURL branch,
         [.gitFetch dir branch, .removeDir dir, .gitClone gitURL branch dir])
    else
      if env.gitPullOk dir branch then
        (true, [.gitPull dir branch])
      else
        (env.cloneOk gitURL branch,
         [.gitPull dir branch, .removeDir dir, .gitClone gitURL branch dir])
  else
    (env.cloneOk gitURL branch, [.gitClone gitURL branch dir])

/-- The reconciler's in-memory per-item status map (currentImageStatus, also
holding git-repo entries keyed url#branch).  Modelled as an association list
in insertion order; Go map iteration order is unspecified, so list order is a
determinization. -/
abbrev StatusMap := List (String × ItemStatus)

/-- Lookup in the status map. -/
def lookupStatus (m : StatusMap) (k : String) : Option ItemStatus :=
  (m.find? (fun q => q.1 == k)).map (fun q => q.2)

/-- Go map assignment: replace in place, or append when the key is new. -/
def insertStatus : StatusMap → String → ItemStatus → StatusMap
  | [], k, v => [(k, v)]
  | (k', v') :: rest, k, v =>
    if k' = k then (k, v) :: rest else (k', v') :: insertStatus rest k v

/-- Substring test (strings.Contains; inputs are ASCII so char positions and
byte positions coincide). -/
def strContains (s sub : String) : Bool :=
  (List.range (s.length + 1)).any
    (fun i => List.isPrefixOf sub.data (s.data.drop i))

/-- strings.HasPrefix on ASCII data. -/
def strStartsWith (s p : String) : Bool := List.isPrefixOf p.data s.data

/-- strings.TrimPrefix tail: drop the first n characters. -/
def strDropChars (s : String) (n : Nat) : String := String.mk (s.data.drop n)

/-- Out-of-band update marker parsed from plan annotations. -/
structure UpdateRequest where
  timestamp : String
  force : Bool
deriving DecidableEq, Repr

/-- Annotation key stem for update markers. -/
def updateRepoKeyStem : String := "canhazgpu.dev/update-repo-"

/-- Annotation key stem for the matching force flags. -/
def forceUpdateKeyStem : String := "canhazgpu.dev/force-update-"

/-- Lookup in an annotation map. -/
def lookupAnn (anns : List (String × String)) (k : String) : Option String :=
  (anns.find? (fun q => q.1 == k)).map (fun q => q.2)

/-- checkForUpdateAnnotations (cache.go): collect the markers named by
update-repo keys; the force flag comes from the matching force-update key
being literally "true". -/
def checkForUpdateAnnotations (anns : List (String × String)) :
    List (String × UpdateRequest) :=
  anns.filterMap (fun q =>
    if strStartsWith q.1 updateRepoKeyStem then
      let repoName := strDropChars q.1 updateRepoKeyStem.length
      some (repoName,
        { timestamp := q.2,
          force := lookupAnn anns (forceUpdateKeyStem ++ repoName) ==
            some "true" })
    else none)

/-- Lookup of a parsed update marker by item name. -/
def lookupUpdate (ups : List (String × UpdateRequest)) (k : String) :
    Option UpdateRequest :=
  (ups.find? (fun q => q.1 == k)).map (fun q => q.2)

/-- The zero UpdateRequest a missing map lookup yields in Go. -/
def noUpdate : UpdateRequest := { timestamp := "", force := false }

/-- Marker for an item name, or the Go zero value when absent. -/
def urOf (ups : List (String × UpdateRequest)) (rawName : String) :
    UpdateRequest :=
  (lookupUpdate ups rawName).getD noUpdate

/-- One declared cache plan item, already decoded: the raw name field (may be
empty), and the per-type payload.  Items missing their required payload are
skipped by the source and are not represented. -/
inductive CacheItem where
  | image (rawName imageRef : String)
  | gitRepo (rawName url : String) (branchOpt pathOpt : Option String)
deriving DecidableEq, Repr

/-- Decoded CachePlan object: resourceVersion and the printed spec feed the
change-detection hash, annotations carry update markers, items the payload. -/
structure CachePlan where
  resourceVersion : String
  specRepr : String
  annotations : List (String × String)
  items : List CacheItem
deriving DecidableEq, Repr

/-- calculatePlanHash (cache.go): concatenation of every plan's
resourceVersion and printed spec.  The source hex-encodes this string with
%x; hex encoding is injective, so hash equality is unchanged by omitting
it. -/
def calculatePlanHash (plans : List CachePlan) : String :=
  plans.foldl (fun acc q => acc ++ q.resourceVersion ++ q.specRepr) ""

/-- Raw (undefaulted) name of an item, the key used for marker lookup. -/
def itemRawName : CacheItem → String
  | .image rawName _ => rawName
  | .gitRepo rawName _ _ _ => rawName

/-- Defaulting of the git item fields performed by processGitRepoItem:
name falls back to the url, branch to "main", pathName to the name.
Returns (name, branch, pathName). -/
def repoFields (rawName url : String) (branchOpt pathOpt : Option String) :
    String × String × String :=
  let branch := branchOpt.getD "main"
  let name := if rawName = "" then url else rawName
  let pathName := match pathOpt with
    | some q => if q = "" then name else q
    | none => name
  (name, branch, pathName)

/-- Status-map key an item is stored under: the image ref, or url#branch. -/
def itemKey : CacheItem → String
  | .image _ ref => ref
  | .gitRepo rawName url b p =>
    url ++ "#" ++ (repoFields rawName url b p).2.1

/-- Outcome of processing one item: statuses and error strings appended to
the pass aggregates, the updated status map, and the tool calls made. -/
structure ItemResult where
  statuses : List ItemStatus
  errors : List String
  statusMap : StatusMap
  calls : List ToolCall
deriving DecidableEq, Repr

/-- Final status entry an image pull attempt produces (processImageItem):
ready and present on success, failed with the tool's message otherwise.
The transient "pulling" value is overwritten before the call returns. -/
def imageStatusFull (env : ToolEnv) (rawName imageRef : String) : ItemStatus :=
  let name := if rawName = "" then imageRef else rawName
  if env.pullOk imageRef then
    { ref := imageRef, name := name, branch := none, present := true,
      status := "ready", message := "Pull completed successfully" }
  else
    { ref := imageRef, name := name, branch := none, present := false,
      status := "failed", message := "Pull failed: " ++ env.pullErr imageRef }

/-- The pull path of processImageItem: invoke the Image Puller and record
the outcome under the image ref. -/
def pullImageItem (env : ToolEnv) (rawName imageRef : String)
    (m : StatusMap) : ItemResult :=
  let st := imageStatusFull env rawName imageRef
  { statuses := [st],
    errors := if env.pullOk imageRef then []
      else ["Failed to pull image " ++ imageRef ++ ": " ++
        env.pullErr imageRef],
    statusMap := insertStatus m imageRef st,
    calls := [.crictlPull imageRef] }

/-- processImageItem (cache.go): when the plan did not change and a status
for this exact ref exists, reuse it without invoking the puller; otherwise
pull. -/
def processImageItem (env : ToolEnv) (rawName imageRef : String)
    (planChanged : Bool) (m : StatusMap) : ItemResult :=
  match lookupStatus m imageRef with
  | some existing =>
    if planChanged then pullImageItem env rawName imageRef m
    else { statuses := [existing], errors := [], statusMap := m, calls := [] }
  | none => pullImageItem env rawName imageRef m

/-- The sync path of processGitRepoItem: run cloneGitRepo and record the
outcome under url#branch. -/
def syncGitRepoItem (env : ToolEnv) (ur : UpdateRequest) (rawName url : String)
    (branchOpt pathOpt : Option String) (m : StatusMap) : ItemResult :=
  let f := repoFields rawName url branchOpt pathOpt
  let branch := f.2.1
  let repoKey := url ++ "#" ++ branch
  let r := cloneGitRepo env url branch f.2.2 ur.force
  if r.1 then
    let st : ItemStatus :=
      { ref := url, name := f.1, branch := some branch,
        present := true, status := "ready",
        message := "Clone completed successfully (branch: " ++ branch ++ ")" }
    { statuses := [st], errors := [],
      statusMap := insertStatus m repoKey st, calls := r.2 }
  else
    let st : ItemStatus :=
      { ref := url, name := f.1, branch := some branch,
        present := false, status := "failed",
        message := "Clone failed: " ++ env.cloneErr url }
    { statuses := [st],
      errors := ["Failed to clone git repo " ++ url ++ " (branch: " ++
        branch ++ "): " ++ env.cloneErr url],
      statusMap := insertStatus m repoKey st, calls := r.2 }

/-- processGitRepoItem (cache.go): when no update is due and a status for
url#branch exists, reuse it; otherwise sync via cloneGitRepo. -/
def processGitRepoItem (env : ToolEnv) (rawName url : String)
    (branchOpt pathOpt : Option String) (shouldUpdate : Bool)
    (ur : UpdateRequest) (m : StatusMap) : ItemResult :=
  let branch := (repoFields rawName url branchOpt pathOpt).2.1
  match lookupStatus m (url ++ "#" ++ branch) with
  | some existing =>
    if shouldUpdate then syncGitRepoItem env ur rawName url branchOpt pathOpt m
    else { statuses := [existing], errors := [], statusMap := m, calls := [] }
  | none => syncGitRepoItem env ur rawName url branchOpt pathOpt m

/-- Dispatch of the per-item switch in processCachePlans: images re-sync when
the plan changed, git repos when the plan changed or a marker names them. -/
def processItem (env : ToolEnv) (planChanged : Bool)
    (ups : List (String × UpdateRequest)) (m : StatusMap) :
    CacheItem → ItemResult
  | .image rawName ref => processImageItem env rawName ref planChanged m
  | .gitRepo rawName url b p =>
    let uro := lookupUpdate ups rawName
    processGitRepoItem env rawName url b p (planChanged || uro.isSome)
      (uro.getD noUpdate) m

/-- Aggregated outcome of a reconciliation pass. -/
structure PassResult where
  images : List ItemStatus
  repos : List ItemStatus
  errors : List String
  statusMap : StatusMap
  calls : List ToolCall
deriving DecidableEq, Repr

/-- The item loop of processCachePlans: strictly sequential, appending image
statuses to pulledImages and repo statuses to clonedRepos, never aborting on
an item failure. -/
def processItems (env : ToolEnv) (planChanged : Bool)
    (ups : List (String × UpdateRequest)) :
    List CacheItem → StatusMap → PassResult
  | [], m => { images := [], repos := [], errors := [], statusMap := m,
               calls := [] }
  | i :: items, m =>
    let r := processItem env planChanged ups m i
    let rest := processItems env planChanged ups items r.statusMap
    match i with
    | .image _ _ =>
      { images := r.statuses ++ rest.images, repos := rest.repos,
        errors := r.errors ++ rest.errors, statusMap := rest.statusMap,
        calls := r.calls ++ rest.calls }
    | .gitRepo _ _ _ _ =>
      { images := rest.images, repos := r.statuses ++ rest.repos,
        errors := r.errors ++ rest.errors, statusMap := rest.statusMap,
        calls := r.calls ++ rest.calls }

/-- The plan loop of processCachePlans: each plan contributes its own parsed
update markers and its items, in order. -/
def processPlans (env : ToolEnv) (planChanged : Bool) :
    List CachePlan → StatusMap → PassResult
  | [], m => { images := [], repos := [], errors := [], statusMap := m,
               calls := [] }
  | q :: qs, m =>
    let ups := checkForUpdateAnnotations q.annotations
    let r := processItems env planChanged ups q.items m
    let rest := processPlans env planChanged qs r.statusMap
    { images := r.images ++ rest.images, repos := r.repos ++ rest.repos,
      errors := r.errors ++ rest.errors, statusMap := rest.statusMap,
      calls := r.calls ++ rest.calls }

/-- Reconciler state carried across passes (SimpleCacheReconciler fields). -/
structure ReconcilerState where
  lastFullReconcile : Nat
  lastCachePlanHash : String
  currentImageStatus : StatusMap
deriving DecidableEq, Repr

/-- Fresh reconciler state (zero time, empty hash, empty map). -/
def initialReconcilerState : ReconcilerState :=
  { lastFullReconcile := 0, lastCachePlanHash := "",
    currentImageStatus := [] }

/-- One hour, in the Nat time unit (seconds). -/
def timeHour : Nat := 3600

/-- The key/ref heuristic getCurrentStatus uses to classify a cached entry
as a git repo. -/
def isRepoEntry (key : String) (st : ItemStatus) : Bool :=
  strContains key "#" || strContains st.ref "github.com" ||
    strContains st.ref "gitlab.com" || strContains st.ref ".git"

/-- getCurrentStatus (cache.go): replay the stored entries, classifying each
by the substring heuristic into images and git repos. -/
def getCurrentStatus (m : StatusMap) : List ItemStatus × List ItemStatus :=
  (m.filterMap (fun q => if isRepoEntry q.1 q.2 then none else some q.2),
   m.filterMap (fun q => if isRepoEntry q.1 q.2 then some q.2 else none))

/-- processCachePlans (cache.go), given an already-fetched plan list: decide
planChanged against the stored hash and whether a full pass is due (changed
hash or one hour since the last full pass); short-circuit to the cached
statuses otherwise.  The external NodeCacheStatus write performed by
Reconcile after this call is outside this function in the source as well. -/
def processCachePlans (env : ToolEnv) (st : ReconcilerState) (now : Nat)
    (plans : List CachePlan) : PassResult × ReconcilerState :=
  let planHash := calculatePlanHash plans
  let planChanged := planHash != st.lastCachePlanHash
  let shouldFull := planChanged || decide (timeHour ≤ now - st.lastFullReconcile)
  if shouldFull then
    let r := processPlans env planChanged plans st.currentImageStatus
    (r, { lastFullReconcile := now,
          lastCachePlanHash := if planChanged then planHash
            else st.lastCachePlanHash,
          currentImageStatus := r.statusMap })
  else
    ({ images := (getCurrentStatus st.currentImageStatus).1,
       repos := (getCurrentStatus st.currentImageStatus).2,
       errors := [], statusMap := st.currentImageStatus, calls := [] }, st)

/-- Errors an item contributes on a changed-plan pass (mirror of the
pull and sync paths, for theorem statements). -/
def itemErrorsFull (env : ToolEnv) (ups : List (String × UpdateRequest)) :
    CacheItem → List String
  | .image _ ref =>
    if env.pullOk ref then []
    else ["Failed to pull image " ++ ref ++ ": " ++ env.pullErr ref]
  | .gitRepo rawName url b p =>
    let f := repoFields rawName url b p
    if (cloneGitRepo env url f.2.1 f.2.2 (urOf ups rawName).force).1 then []
    else ["Failed to clone git repo " ++ url ++ " (branch: " ++ f.2.1 ++
      "): " ++ env.cloneErr url]

/-- Tool calls an item performs on a changed-plan pass (mirror). -/
def itemCallsFull (env : ToolEnv) (ups : List (String × UpdateRequest)) :
    CacheItem → List ToolCall
  | .image _ ref => [.crictlPull ref]
  | .gitRepo rawName url b p =>
    let f := repoFields rawName url b p
    (cloneGitRepo env url f.2.1 f.2.2 (urOf ups rawName).force).2

/-- Status an item ends with on a changed-plan pass (mirror). -/
def itemStatusFull (env : ToolEnv) (ups : List (String × UpdateRequest)) :
    CacheItem → ItemStatus
  | .image rawName ref => imageStatusFull env rawName ref
  | .gitRepo rawName url b p =>
    let f := repoFields rawName url b p
    if (cloneGitRepo env url f.2.1 f.2.2 (urOf ups rawName).force).1 then
      { ref := url, name := f.1, branch := some f.2.1, present := true,
        status := "ready",
        message := "Clone completed successfully (branch: " ++ f.2.1 ++ ")" }
    else
      { ref := url, name := f.1, branch := some f.2.1, present := false,
        status := "failed", message := "Clone failed: " ++ env.cloneErr url }

/-- Item-kind discriminator. -/
def isImageItem : CacheItem → Bool
  | .image _ _ => true
  | .gitRepo _ _ _ _ => false

/-- An image ref that trips none of the git-repo classification substrings. -/
def imageRefHeuristicFree (ref : String) : Bool :=
  !(strContains ref "#" || strContains ref "github.com" ||
    strContains ref "gitlab.com" || strContains ref ".git")

/-- An item whose processing on an unchanged-plan pass is a pure cache hit:
its status is present in the map and (for git repos) no marker names it. -/
def QuietItem (ups : List (String × UpdateRequest)) (m : StatusMap) :
    CacheItem → Prop
  | .image _ ref => (lookupStatus m ref).isSome = true
  | .gitRepo rawName url b p =>
    (lookupStatus m (itemKey (.gitRepo rawName url b p))).isSome = true ∧
      lookupUpdate ups rawName = none

/-- Fallback entry used to read a known-present cached status totally. -/
def blankStatus : ItemStatus :=
  { ref := "", name := "", branch := none, present := false, status := "",
    message := "" }

/-- Cached status under a key, defaulting to the blank entry. -/
def cachedStatusD (m : StatusMap) (k : String) : ItemStatus :=
  (lookupStatus m k).getD blankStatus

/-- Tool environment in which every invocation succeeds and no repo
directory exists yet. -/
def wEnvAllOk : ToolEnv :=
  { pullOk := fun _ => true, pullErr := fun _ => "e",
    dirExists := fun _ => false, hasGit := fun _ => false,
    fetchOk := fun _ _ => true, resetOk := fun _ _ => true,
    gitPullOk := fun _ _ => true, cloneOk := fun _ _ => true,
    cloneErr := fun _ => "e" }

/-- Tool environment for a repo directory that exists but holds no .git
marker: every in-place git operation fails there, a fresh clone succeeds. -/
def wEnvNoGit : ToolEnv :=
  { pullOk := fun _ => true, pullErr := fun _ => "e",
    dirExists := fun _ => true, hasGit := fun _ => false,
    fetchOk := fun _ _ => false, resetOk := fun _ _ => false,
    gitPullOk := fun _ _ => false, cloneOk := fun _ _ => true,
    cloneErr := fun _ => "e" }

/-- Tool environment for a healthy existing checkout: directory and marker
present, every git operation succeeds. -/
def wEnvRepo : ToolEnv :=
  { pullOk := fun _ => true, pullErr := fun _ => "e",
    dirExists := fun _ => true, hasGit := fun _ => true,
    fetchOk := fun _ _ => true, resetOk := fun _ _ => true,
    gitPullOk := fun _ _ => true, cloneOk := fun _ _ => true,
    cloneErr := fun _ => "e" }

/-- Tool environment in which image pulls succeed but every clone fails
(network error on the git remote). -/
def wEnvCloneFails : ToolEnv :=
  { pullOk := fun _ => true, pullErr := fun _ => "e",
    dirExists := fun _ => false, hasGit := fun _ => false,
    fetchOk := fun _ _ => false, resetOk := fun _ _ => false,
    gitPullOk := fun _ _ => false, cloneOk := fun _ _ => false,
    cloneErr := fun _ => "network error" }

/-- A cached failed image status entry. -/
def wFailedStatus : ItemStatus :=
  { ref := "img", name := "img", branch := none, present := false,
    status := "failed", message := "Pull failed: e" }

/-- An image item whose reference contains github.com. -/
def wImgGithub : CacheItem := .image "gh" "github.com/foo/bar"

/-- A plan declaring only the github.com image item. -/
def wPlanGit : CachePlan :=
  { resourceVersion := "rv1", specRepr := "s1", annotations := [],
    items := [wImgGithub] }

/-- A plan declaring one ordinary image item (ref trips no heuristic). -/
def wPlanImg : CachePlan :=
  { resourceVersion := "rv2", specRepr := "s2", annotations := [],
    items := [.image "i" "quay-io/img"] }

/-- Reconciler state that has already absorbed wPlanImg, 100 ticks ago. -/
def wStC6 : ReconcilerState :=
  { lastFullReconcile := 100, lastCachePlanHash := calculatePlanHash [wPlanImg],
    currentImageStatus := [] }

/-- A git repo item named R. -/
def wRepoItemR : CacheItem := .gitRepo "R" "u" none none

/-- Annotations carrying a force-update marker for R. -/
def wAnnsR : List (String × String) :=
  [("canhazgpu.dev/update-repo-R", "t1"),
   ("canhazgpu.dev/force-update-R", "true")]

/-- A plan declaring repo R with the force-update marker set. -/
def wPlanC9 : CachePlan :=
  { resourceVersion := "rv9", specRepr := "s9", annotations := wAnnsR,
    items := [wRepoItemR] }

/-- The cached ready status of repo R. -/
def wReadyRepo : ItemStatus :=
  { ref := "u", name := "R", branch := some "main", present := true,
    status := "ready", message := "Clone completed successfully (branch: main)" }

/-- Reconciler state that has already absorbed wPlanC9 (hash unchanged) and
caches repo R as ready. -/
def wStC9 : ReconcilerState :=
  { lastFullReconcile := 0, lastCachePlanHash := calculatePlanHash [wPlanC9],
    currentImageStatus := [("u#main", wReadyRepo)] }

/-- The ready status the github.com image ends with after a pull. -/
def wGhStatus : ItemStatus :=
  { ref := "github.com/foo/bar", name := "gh", branch := none,
    present := true, status := "ready",
    message := "Pull completed successfully" }

/-- A cached status map holding only the github.com image entry. -/
def wMapG : StatusMap := [("github.com/foo/bar", wGhStatus)]

/-- A plan's items mixing a pullable image with a repo whose clone fails. -/
def wItemsC7 : List CacheItem :=
  [.image "" "img1", .gitRepo "r" "u" none none]

/-- The ready status a successful repo sync stores (named form of the
literal written in syncGitRepoItem). -/
def readyRepoStatus (url name branch : String) : ItemStatus :=
  { ref := url, name := name, branch := some branch, present := true,
    status := "ready",
    message := "Clone completed successfully (branch: " ++ branch ++ ")" }

/-- Prepending the fixed "k8s:" tag keeps claim identifiers distinguishable. -/
theorem k8sTag_inj {a b : String} (h : "k8s:" ++ a = "k8s:" ++ b) : a = b := by
  have h2 := congrArg String.data h
  rw [String.data_append, String.data_append] at h2
  have h3 := List.append_cancel_left h2
  cases a; cases b
  exact congrArg String.mk h3

/-- A "k8s:"-tagged owner string is never the empty string. -/
theorem k8sTag_ne_empty (a : String) : ("k8s:" ++ a) ≠ "" := by
  intro h
  have h2 := congrArg String.data h
  rw [String.data_append] at h2
  simp at h2

/-- Membership in the result of a Redis SADD. -/
theorem sAdd_mem (xs : List Nat) : ∀ (s : List Nat) (x : Nat),
    x ∈ sAdd s xs ↔ x ∈ s ∨ x ∈ xs := by
  induction xs with
  | nil => intro s x; simp [sAdd]
  | cons y ys ih =>
    intro s x
    show x ∈ sAdd (if y ∈ s then s else s ++ [y]) ys ↔ _
    by_cases hy : y ∈ s
    · rw [if_pos hy, ih]
      constructor
      · rintro (h | h)
        · exact Or.inl h
        · exact Or.inr (List.mem_cons_of_mem _ h)
      · rintro (h | h)
        · exact Or.inl h
        · rcases List.mem_cons.mp h with rfl | h
          · exact Or.inl hy
          · exact Or.inr h
    · rw [if_neg hy, ih]
      constructor
      · rintro (h | h)
        · rcases List.mem_append.mp h with h | h
          · exact Or.inl h
          · simp at h; subst h; exact Or.inr (List.mem_cons_self _ _)
        · exact Or.inr (List.mem_cons_of_mem _ h)
      · rintro (h | h)
        · exact Or.inl (List.mem_append.mpr (Or.inl h))
        · rcases List.mem_cons.mp h with rfl | h
          · exact Or.inl (by simp)
          · exact Or.inr h

/-- Field-by-field effect of the reservation write loop. -/
theorem reserveWrites_spec (now : Nat) (c p ns : String) (ids : List Nat) :
    ∀ l : Ledger,
      (reserveWrites now c p ns l ids).gpuCount = l.gpuCount ∧
      (reserveWrites now c p ns l ids).hostGpu = l.hostGpu ∧
      (reserveWrites now c p ns l ids).claimGpus = l.claimGpus ∧
      ∀ g, (reserveWrites now c p ns l ids).k8sGpu g =
        if g ∈ ids then some (reservedState c now) else l.k8sGpu g := by
  induction ids with
  | nil => intro l; refine ⟨rfl, rfl, rfl, ?_⟩; intro g; simp [reserveWrites]
  | cons i ids ih =>
    intro l
    have hstep : reserveWrites now c p ns l (i :: ids) =
        reserveWrites now c p ns
          { l with
            k8sGpu := updNat l.k8sGpu i (some (reservedState c now)),
            claimInfo := updStr l.claimInfo c
              (updNat (l.claimInfo c) i
                (some { claimUID := c, podName := p, nspace := ns,
                        reservedAt := now })) } ids := rfl
    rw [hstep]
    obtain ⟨h1, h2, h3, h4⟩ := ih _
    refine ⟨h1, h2, h3, ?_⟩
    intro g
    rw [h4 g]
    by_cases hg : g ∈ ids
    · simp [hg, List.mem_cons]
    · by_cases hgi : g = i
      · subst hgi; simp [hg, updNat]
      · simp [hg, hgi, updNat]

/-- Field-by-field effect of the release write loop. -/
theorem releaseWrites_spec (now : Nat) (c : String) (ids : List Nat) :
    ∀ l : Ledger,
      (releaseWrites now c l ids).gpuCount = l.gpuCount ∧
      (releaseWrites now c l ids).hostGpu = l.hostGpu ∧
      (releaseWrites now c l ids).claimGpus = l.claimGpus ∧
      ∀ g, (releaseWrites now c l ids).k8sGpu g =
        if g ∈ ids then some (releasedState now) else l.k8sGpu g := by
  induction ids with
  | nil => intro l; refine ⟨rfl, rfl, rfl, ?_⟩; intro g; simp [releaseWrites]
  | cons i ids ih =>
    intro l
    have hstep : releaseWrites now c l (i :: ids) =
        releaseWrites now c
          { l with
            k8sGpu := updNat l.k8sGpu i (some (releasedState now)),
            claimInfo := updStr l.claimInfo c
              (updNat (l.claimInfo c) i none) } ids := rfl
    rw [hstep]
    obtain ⟨h1, h2, h3, h4⟩ := ih _
    refine ⟨h1, h2, h3, ?_⟩
    intro g
    rw [h4 g]
    by_cases hg : g ∈ ids
    · simp [hg, List.mem_cons]
    · by_cases hgi : g = i
      · subst hgi; simp [hg, updNat]
      · simp [hg, hgi, updNat]

/-- Membership characterization of the available list. -/
theorem mem_getAvailable {l : Ledger} {g : Nat} :
    g ∈ GetAvailableGPUs l ↔
      g < l.gpuCount ∧ gpuEntryAvailable (l.k8sGpu g) = true ∧
        gpuEntryAvailable (l.hostGpu g) = true := by
  simp [GetAvailableGPUs, List.mem_filter, List.mem_range, and_assoc]

/-- The claim GPU-id sets after a reservation. -/
theorem reserve_claimGpus (l : Ledger) (now : Nat) (sel : List Nat)
    (c p ns : String) (c1 : String) :
    (ReserveGPUsForClaim l now sel c p ns).claimGpus c1 =
      if c1 = c then sAdd (l.claimGpus c) sel else l.claimGpus c1 := by
  obtain ⟨_, _, h3, _⟩ := reserveWrites_spec now c p ns sel l
  simp only [ReserveGPUsForClaim, updStr, h3]

/-- The k8s-domain records after a reservation. -/
theorem reserve_k8sGpu (l : Ledger) (now : Nat) (sel : List Nat)
    (c p ns : String) (g : Nat) :
    (ReserveGPUsForClaim l now sel c p ns).k8sGpu g =
      if g ∈ sel then some (reservedState c now) else l.k8sGpu g := by
  obtain ⟨_, _, _, h4⟩ := reserveWrites_spec now c p ns sel l
  simpa only [ReserveGPUsForClaim] using h4 g

/-- Reservation leaves the host domain and the pool size untouched. -/
theorem reserve_frame (l : Ledger) (now : Nat) (sel : List Nat)
    (c p ns : String) :
    (ReserveGPUsForClaim l now sel c p ns).hostGpu = l.hostGpu ∧
    (ReserveGPUsForClaim l now sel c p ns).gpuCount = l.gpuCount := by
  obtain ⟨h1, h2, _, _⟩ := reserveWrites_spec now c p ns sel l
  exact ⟨h2, h1⟩

/-- The claim GPU-id sets after a release. -/
theorem release_claimGpus (l : Ledger) (now : Nat) (c : String) (c1 : String) :
    (ReleaseGPUsForClaim l now c).claimGpus c1 =
      if c1 = c then [] else l.claimGpus c1 := by
  obtain ⟨_, _, h3, _⟩ := releaseWrites_spec now c (l.claimGpus c) l
  simp only [ReleaseGPUsForClaim, updStr, h3]

/-- The k8s-domain records after a release. -/
theorem release_k8sGpu (l : Ledger) (now : Nat) (c : String) (g : Nat) :
    (ReleaseGPUsForClaim l now c).k8sGpu g =
      if g ∈ l.claimGpus c then some (releasedState now) else l.k8sGpu g := by
  obtain ⟨_, _, _, h4⟩ := releaseWrites_spec now c (l.claimGpus c) l
  simpa only [ReleaseGPUsForClaim] using h4 g

/-- Release leaves the host domain and the pool size untouched. -/
theorem release_frame (l : Ledger) (now : Nat) (c : String) :
    (ReleaseGPUsForClaim l now c).hostGpu = l.hostGpu ∧
    (ReleaseGPUsForClaim l now c).gpuCount = l.gpuCount := by
  obtain ⟨h1, h2, _, _⟩ := releaseWrites_spec now c (l.claimGpus c) l
  exact ⟨h2, h1⟩

/-- A slot whose stored owner is a tagged claim reference never tests as
available. -/
theorem owned_not_available {s : GPUState} {c : String}
    (h : s.user = "k8s:" ++ c) : gpuEntryAvailable (some s) = false := by
  simp only [gpuEntryAvailable, Bool.and_eq_false_iff]
  left
  rw [h]
  exact beq_eq_false_iff_ne.mpr (k8sTag_ne_empty c)

/-- Reservation of slots drawn from the available list preserves the
bidirectional-consistency invariant. -/
theorem LedgerInv_reserve {l : Ledger} (hinv : LedgerInv l) (now : Nat)
    {sel : List Nat} (hsel : ∀ g ∈ sel, g ∈ GetAvailableGPUs l)
    (c p ns : String) : LedgerInv (ReserveGPUsForClaim l now sel c p ns) := by
  intro c1 g hg
  rw [reserve_claimGpus] at hg
  rw [reserve_k8sGpu]
  by_cases hmem : g ∈ sel
  · rw [if_pos hmem]
    have hc1 : c1 = c := by
      by_contra hne
      rw [if_neg hne] at hg
      obtain ⟨s, hs, hu⟩ := hinv c1 g hg
      have havail := (mem_getAvailable.mp (hsel g hmem)).2.1
      rw [hs] at havail
      rw [owned_not_available hu] at havail
      exact Bool.false_ne_true havail
    subst hc1
    exact ⟨_, rfl, rfl⟩
  · rw [if_neg hmem]
    by_cases hc1 : c1 = c
    · subst hc1
      rw [if_pos rfl, sAdd_mem] at hg
      rcases hg with hg | hg
      · exact hinv c1 g hg
      · exact absurd hg hmem
    · rw [if_neg hc1] at hg
      exact hinv c1 g hg

/-- Release preserves the bidirectional-consistency invariant. -/
theorem LedgerInv_release {l : Ledger} (hinv : LedgerInv l) (now : Nat)
    (c0 : String) : LedgerInv (ReleaseGPUsForClaim l now c0) := by
  intro c1 g hg
  rw [release_claimGpus] at hg
  by_cases hc : c1 = c0
  · rw [if_pos hc] at hg
    exact absurd hg (List.not_mem_nil g)
  · rw [if_neg hc] at hg
    obtain ⟨s, hs, hu⟩ := hinv c1 g hg
    have hnot : g ∉ l.claimGpus c0 := by
      intro hg0
      obtain ⟨s0, hs0, hu0⟩ := hinv c0 g hg0
      rw [hs] at hs0
      have : s = s0 := Option.some.inj hs0
      subst this
      exact hc (k8sTag_inj (hu.symm.trans hu0))
    rw [release_k8sGpu, if_neg hnot]
    exact ⟨s, hs, hu⟩

/-- On success handleAllocate reserves exactly the returned ids, all of which
were drawn from the available list it read. -/
theorem handleAllocate_success {l : Ledger} {now : Nat} {nn : String}
    {req : AllocationRequest}
    (h : (handleAllocate l now nn req).1.success = true) :
    (∀ g ∈ (handleAllocate l now nn req).1.allocatedGPUs,
        g ∈ GetAvailableGPUs l) ∧
    (handleAllocate l now nn req).2 =
      ReserveGPUsForClaim l now (handleAllocate l now nn req).1.allocatedGPUs
        req.claimUID req.podName req.nspace := by
  by_cases he : req.gpuIDs.isEmpty
  · by_cases hlen : (GetAvailableGPUs l).length < req.gpuCount
    · exfalso
      simp [handleAllocate, he, hlen] at h
    · constructor
      · intro g hg
        simp only [handleAllocate, he, if_true, if_neg hlen] at hg
        exact List.take_subset _ _ hg
      · simp [handleAllocate, he, hlen]
  · cases hf : req.gpuIDs.find? (fun id => !((GetAvailableGPUs l).contains id)) with
    | some bad =>
      exfalso
      simp only [handleAllocate, he, Bool.false_eq_true, if_false] at h
      rw [hf] at h
      exact Bool.false_ne_true h
    | none =>
      constructor
      · intro g hg
        simp only [handleAllocate, he, Bool.false_eq_true, if_false, hf] at hg
        have hall := List.find?_eq_none.mp hf g hg
        simp only [Bool.not_eq_true', Bool.not_eq_false] at hall
        exact List.mem_of_elem_eq_true hall
      · simp only [handleAllocate, he, Bool.false_eq_true, if_false, hf]

/-- On failure handleAllocate returns before any ledger write. -/
theorem handleAllocate_cases (l : Ledger) (now : Nat) (nn : String)
    (req : AllocationRequest) :
    (handleAllocate l now nn req).1.success = true ∨
      (handleAllocate l now nn req).2 = l := by
  by_cases he : req.gpuIDs.isEmpty
  · by_cases hlen : (GetAvailableGPUs l).length < req.gpuCount
    · right; simp [handleAllocate, he, hlen]
    · left; simp [handleAllocate, he, hlen]
  · cases hf : req.gpuIDs.find? (fun id => !((GetAvailableGPUs l).contains id)) with
    | some bad =>
      right
      simp only [handleAllocate, he, Bool.false_eq_true, if_false, hf]
    | none =>
      left
      simp only [handleAllocate, he, Bool.false_eq_true, if_false, hf]

/-- Every serialized request preserves the invariant. -/
theorem LedgerInv_step {l : Ledger} (hinv : LedgerInv l) (op : AgentOp) :
    LedgerInv (stepOp l op) := by
  cases op with
  | allocate now req =>
    rcases handleAllocate_cases l now "node" req with hs | hfail
    · obtain ⟨hsub, heq⟩ := handleAllocate_success hs
      show LedgerInv (handleAllocate l now "node" req).2
      rw [heq]
      exact LedgerInv_reserve hinv now hsub _ _ _
    · show LedgerInv (handleAllocate l now "node" req).2
      rw [hfail]
      exact hinv
  | deallocate now c => exact LedgerInv_release hinv now c

/-- Running further requests from any invariant-satisfying ledger keeps the
invariant (foldl form). -/
theorem foldl_inv {l : Ledger} (hinv : LedgerInv l) (ops : List AgentOp) :
    LedgerInv (ops.foldl stepOp l) := by
  induction ops generalizing l with
  | nil => exact hinv
  | cons op ops ih =>
    rw [List.foldl_cons]
    exact ih (LedgerInv_step hinv op)

/-- Every ledger reachable from an initialized pool by serialized requests
satisfies the invariant. -/
theorem LedgerInv_runOps (n : Nat) (ops : List AgentOp) :
    LedgerInv (runOps (initLedger n) ops) := by
  have hinit : LedgerInv (initLedger n) := by
    intro c g hg
    exact absurd hg (List.not_mem_nil g)
  rw [runOps]
  exact foldl_inv hinit ops

/-- C1: No double-booking.  For every serialized sequence of allocate and
release requests against the node agent, starting from an initialized pool
with no reservations, no GPU id is simultaneously in two distinct claims'
ownership sets; moreover a successful allocate only hands out GPU ids that
both ownership domains showed as unowned at the time of the request. -/
theorem noDoubleBooking (n : Nat) (ops : List AgentOp) (c c' : String)
    (g : Nat) (hcc : c ≠ c')
    (hg : g ∈ (runOps (initLedger n) ops).claimGpus c) :
    g ∉ (runOps (initLedger n) ops).claimGpus c' ∧
    ∀ (now : Nat) (nn : String) (req : AllocationRequest) (g' : Nat),
      (handleAllocate (runOps (initLedger n) ops) now nn req).1.success =
        true →
      g' ∈ (handleAllocate (runOps (initLedger n) ops) now nn
        req).1.allocatedGPUs →
      gpuEntryAvailable ((runOps (initLedger n) ops).k8sGpu g') = true ∧
      gpuEntryAvailable ((runOps (initLedger n) ops).hostGpu g') = true := by
  have hinv := LedgerInv_runOps n ops
  constructor
  · intro hg'
    obtain ⟨s, hs, hu⟩ := hinv c g hg
    obtain ⟨s', hs', hu'⟩ := hinv c' g hg'
    rw [hs] at hs'
    obtain rfl := Option.some.inj hs'
    exact hcc (k8sTag_inj (hu.symm.trans hu'))
  · intro now nn req g' hsucc hmem
    have hm := mem_getAvailable.mp ((handleAllocate_success hsucc).1 g' hmem)
    exact ⟨hm.2.1, hm.2.2⟩

/-- Witness for noDoubleBooking: two claims each reserve one GPU of a pool of
two; GPU 0 sits in claim "a"'s ownership set and not in claim "b"'s. -/
theorem noDoubleBooking_witness :
    0 ∈ (runOps (initLedger 2) wOps).claimGpus "a" ∧
    0 ∉ (runOps (initLedger 2) wOps).claimGpus "b" :=
  ⟨by decide, (noDoubleBooking 2 wOps "a" "b" 0 (by decide) (by decide)).1⟩

/-- C2: With explicit GPU ids, if any requested id is not in the current
available set, the allocation fails with the message "GPU (id) is not
available" naming an offending id, and the ledger is left completely
untouched (all-or-nothing: no owner record, no metadata, no ownership-set
entry). -/
theorem explicitIdsAllOrNothing (l : Ledger) (now : Nat) (nn : String)
    (req : AllocationRequest)
    (hbad : ∃ id ∈ req.gpuIDs, id ∉ GetAvailableGPUs l) :
    ∃ badId ∈ req.gpuIDs,
      badId ∉ GetAvailableGPUs l ∧
      (handleAllocate l now nn req).1.success = false ∧
      (handleAllocate l now nn req).1.error =
        "GPU " ++ toString badId ++ " is not available" ∧
      (handleAllocate l now nn req).2 = l := by
  obtain ⟨id0, hid0, hnotav⟩ := hbad
  have hne : ¬ req.gpuIDs.isEmpty = true := by
    cases hq : req.gpuIDs with
    | nil => rw [hq] at hid0; exact absurd hid0 (List.not_mem_nil id0)
    | cons a as => simp
  have hsome :
      (req.gpuIDs.find? (fun id => !((GetAvailableGPUs l).contains id))).isSome := by
    rw [List.find?_isSome]
    refine ⟨id0, hid0, ?_⟩
    simpa using hnotav
  obtain ⟨bad, hf⟩ := Option.isSome_iff_exists.mp hsome
  refine ⟨bad, List.mem_of_find?_eq_some hf, ?_, ?_, ?_, ?_⟩
  · have hp := List.find?_some hf
    simpa using hp
  · simp only [handleAllocate, hne, Bool.false_eq_true, if_false, hf]
  · simp only [handleAllocate, hne, Bool.false_eq_true, if_false, hf]
  · simp only [handleAllocate, hne, Bool.false_eq_true, if_false, hf]

/-- Witness for explicitIdsAllOrNothing: a pool of one GPU and a request for
GPU 3 (the spec scenario). -/
theorem explicitIdsAllOrNothing_witness :
    ∃ badId ∈ wReq3.gpuIDs,
      badId ∉ GetAvailableGPUs (initLedger 1) ∧
      (handleAllocate (initLedger 1) 0 "node" wReq3).1.success = false ∧
      (handleAllocate (initLedger 1) 0 "node" wReq3).1.error =
        "GPU " ++ toString badId ++ " is not available" ∧
      (handleAllocate (initLedger 1) 0 "node" wReq3).2 = initLedger 1 :=
  explicitIdsAllOrNothing (initLedger 1) 0 "node" wReq3 ⟨3, by decide, by decide⟩

/-- C3: GetAvailableGPUs performs no writes, returns its ids in ascending
order, and returns exactly those ids below the pool size for which both
ownership domains either hold no record or hold a record with empty owner
(User) and empty Type. -/
theorem getAvailableGPUs_spec (l : Ledger) :
    (GetAvailableGPUsOp l).2 = l ∧
    List.Sorted (· < ·) (GetAvailableGPUs l) ∧
    ∀ g, g ∈ GetAvailableGPUs l ↔
      g < l.gpuCount ∧ domainUnowned (l.k8sGpu g) ∧
        domainUnowned (l.hostGpu g) := by
  have hequiv : ∀ e : Option GPUState,
      (gpuEntryAvailable e = true ↔ domainUnowned e) := by
    intro e
    cases e with
    | none => simp [gpuEntryAvailable, domainUnowned]
    | some s =>
      simp only [gpuEntryAvailable, domainUnowned, Bool.and_eq_true,
        beq_iff_eq, reduceCtorEq, Option.some.injEq, false_or]
      constructor
      · rintro ⟨h1, h2⟩; exact ⟨s, rfl, h1, h2⟩
      · rintro ⟨s', rfl, h1, h2⟩; exact ⟨h1, h2⟩
  refine ⟨rfl, ?_, ?_⟩
  · exact (List.pairwise_lt_range l.gpuCount).filter _
  · intro g
    rw [mem_getAvailable, ← hequiv, ← hequiv]

/-- Witness for getAvailableGPUs_spec at a concrete ledger: in a fresh pool
of two GPUs, id 1 is reported available. -/
theorem getAvailableGPUs_spec_witness :
    1 ∈ GetAvailableGPUs (initLedger 2) :=
  ((getAvailableGPUs_spec (initLedger 2)).2.2 1).mpr
    ⟨by decide, Or.inl rfl, Or.inl rfl⟩

/-- C4: Round trip.  Every GPU id handed out by a successful allocation is,
after releasing that same claim, again a member of the available set, and its
cluster-domain owner field is cleared. -/
theorem reserveReleaseRoundTrip (l : Ledger) (now now' : Nat) (nn : String)
    (req : AllocationRequest) (g : Nat)
    (hs : (handleAllocate l now nn req).1.success = true)
    (hg : g ∈ (handleAllocate l now nn req).1.allocatedGPUs) :
    g ∈ GetAvailableGPUs
      (ReleaseGPUsForClaim (handleAllocate l now nn req).2 now' req.claimUID) ∧
    ∃ s, (ReleaseGPUsForClaim (handleAllocate l now nn req).2 now'
        req.claimUID).k8sGpu g = some s ∧ s.user = "" := by
  obtain ⟨hsub, heq⟩ := handleAllocate_success hs
  obtain ⟨hlt, hk, hh⟩ := mem_getAvailable.mp (hsub g hg)
  rw [heq]
  have hgset : g ∈ (ReserveGPUsForClaim l now
      (handleAllocate l now nn req).1.allocatedGPUs req.claimUID req.podName
      req.nspace).claimGpus req.claimUID := by
    rw [reserve_claimGpus, if_pos rfl, sAdd_mem]
    exact Or.inr hg
  have hk8s : (ReleaseGPUsForClaim (ReserveGPUsForClaim l now
      (handleAllocate l now nn req).1.allocatedGPUs req.claimUID req.podName
      req.nspace) now' req.claimUID).k8sGpu g = some (releasedState now') := by
    rw [release_k8sGpu, if_pos hgset]
  refine ⟨?_, releasedState now', hk8s, rfl⟩
  rw [mem_getAvailable]
  refine ⟨?_, ?_, ?_⟩
  · rw [(release_frame _ now' req.claimUID).2, (reserve_frame l now _ _ _ _).2]
    exact hlt
  · rw [hk8s]
    rfl
  · rw [(release_frame _ now' req.claimUID).1, (reserve_frame l now _ _ _ _).1]
    exact hh

/-- Witness for reserveReleaseRoundTrip: claim "a" reserves GPU 0 from a
fresh pool of one and releases it again. -/
theorem reserveReleaseRoundTrip_witness :
    0 ∈ GetAvailableGPUs (ReleaseGPUsForClaim
      (handleAllocate (initLedger 1) 0 "node" wReqA).2 1 wReqA.claimUID) ∧
    ∃ s, (ReleaseGPUsForClaim (handleAllocate (initLedger 1) 0 "node"
        wReqA).2 1 wReqA.claimUID).k8sGpu 0 = some s ∧ s.user = "" :=
  reserveReleaseRoundTrip (initLedger 1) 0 1 "node" wReqA 0 (by decide)
    (by decide)

/-- Reading the status map through an insertion. -/
theorem lookupStatus_insert (k : String) (v : ItemStatus) :
    ∀ (m : StatusMap) (k' : String),
      lookupStatus (insertStatus m k v) k' =
        if k' = k then some v else lookupStatus m k' := by
  intro m
  induction m with
  | nil =>
    intro k'
    by_cases h : k' = k
    · subst h; simp [insertStatus, lookupStatus]
    · have hb : (k == k') = false := by
        simp only [beq_eq_false_iff_ne]
        exact fun hk => h hk.symm
      simp [insertStatus, lookupStatus, List.find?, hb, h]
  | cons a rest ih =>
    intro k'
    show lookupStatus (if a.1 = k then (k, v) :: rest
      else a :: insertStatus rest k v) k' = _
    by_cases ha : a.1 = k
    · rw [if_pos ha]
      by_cases h : k' = k
      · subst h; simp [lookupStatus, List.find?]
      · simp only [lookupStatus, List.find?]
        have hb : ((k, v).1 == k') = false := by
          simp only [beq_eq_false_iff_ne]
          exact fun hk => h hk.symm
        rw [hb]
        have hb2 : (a.1 == k') = false := by
          simp only [beq_eq_false_iff_ne]
          rw [ha]
          exact fun hk => h hk.symm
        rw [if_neg h]
        simp only [lookupStatus, List.find?, hb2]
    · rw [if_neg ha]
      by_cases h : k' = a.1
      · subst h
        have hne : ¬ a.1 = k := ha
        rw [if_neg (fun hh => hne hh)]
        simp [lookupStatus, List.find?]
      · have hb : (a.1 == k') = false := by
          simp only [beq_eq_false_iff_ne]
          exact fun hk => h hk.symm
        simp only [lookupStatus, List.find?, hb]
        rw [← lookupStatus, ← lookupStatus, ih k']

/-- Inserting under a fresh key appends the entry. -/
theorem insertStatus_append (v : ItemStatus) :
    ∀ (m : StatusMap) (k : String), k ∉ m.map Prod.fst →
      insertStatus m k v = m ++ [(k, v)] := by
  intro m
  induction m with
  | nil => intro k _; rfl
  | cons a rest ih =>
    intro k hk
    show (if a.1 = k then (k, v) :: rest else a :: insertStatus rest k v) = _
    have ha : ¬ a.1 = k := by
      intro h
      exact hk (by simp [h])
    rw [if_neg ha, ih k (fun h => hk (by simp [h]))]
    rfl

/-- On a changed-plan pass every item is fully processed: one status under
its key, its errors, its tool calls, independent of the cached map. -/
theorem processItem_full (env : ToolEnv) (ups : List (String × UpdateRequest))
    (m : StatusMap) (i : CacheItem) :
    processItem env true ups m i =
      { statuses := [itemStatusFull env ups i],
        errors := itemErrorsFull env ups i,
        statusMap := insertStatus m (itemKey i) (itemStatusFull env ups i),
        calls := itemCallsFull env ups i } := by
  cases i with
  | image rawName ref =>
    show processImageItem env rawName ref true m = _
    rw [processImageItem]
    cases hl : lookupStatus m ref with
    | some ex =>
      simp [pullImageItem, itemStatusFull, itemErrorsFull, itemCallsFull,
        itemKey]
    | none =>
      simp [pullImageItem, itemStatusFull, itemErrorsFull, itemCallsFull,
        itemKey]
  | gitRepo rawName url b p =>
    show processGitRepoItem env rawName url b p
      (true || (lookupUpdate ups rawName).isSome)
      ((lookupUpdate ups rawName).getD noUpdate) m = _
    rw [Bool.true_or, processGitRepoItem]
    cases hl : lookupStatus m
        (url ++ "#" ++ (repoFields rawName url b p).2.1) with
    | some ex =>
      simp only [if_true]
      cases hc : (cloneGitRepo env url (repoFields rawName url b p).2.1
          (repoFields rawName url b p).2.2
          ((lookupUpdate ups rawName).getD noUpdate).force).1 with
      | true =>
        simp [syncGitRepoItem, itemStatusFull, itemErrorsFull, itemCallsFull,
          itemKey, urOf, hc]
      | false =>
        simp [syncGitRepoItem, itemStatusFull, itemErrorsFull, itemCallsFull,
          itemKey, urOf, hc]
    | none =>
      cases hc : (cloneGitRepo env url (repoFields rawName url b p).2.1
          (repoFields rawName url b p).2.2
          ((lookupUpdate ups rawName).getD noUpdate).force).1 with
      | true =>
        simp [syncGitRepoItem, itemStatusFull, itemErrorsFull, itemCallsFull,
          itemKey, urOf, hc]
      | false =>
        simp [syncGitRepoItem, itemStatusFull, itemErrorsFull, itemCallsFull,
          itemKey, urOf, hc]

/-- On a changed-plan pass the item loop yields exactly the per-item
outcomes, partitioned by item kind, with the map extended item by item. -/
theorem processItems_full (env : ToolEnv)
    (ups : List (String × UpdateRequest)) :
    ∀ (items : List CacheItem) (m : StatusMap),
      processItems env true ups items m =
        { images := (items.filter isImageItem).map (itemStatusFull env ups),
          repos := (items.filter (fun i => !isImageItem i)).map
            (itemStatusFull env ups),
          errors := (items.map (itemErrorsFull env ups)).flatten,
          statusMap := items.foldl (fun acc i =>
            insertStatus acc (itemKey i) (itemStatusFull env ups i)) m,
          calls := (items.map (itemCallsFull env ups)).flatten } := by
  intro items
  induction items with
  | nil => intro m; rfl
  | cons i items ih =>
    intro m
    cases i with
    | image rawName ref =>
      simp only [processItems, processItem_full, ih]
      simp [isImageItem, List.filter_cons, itemStatusFull, itemErrorsFull,
        itemCallsFull, itemKey]
    | gitRepo rawName url b p =>
      simp only [processItems, processItem_full, ih]
      simp [isImageItem, List.filter_cons]

/-- The item loop distributes over list append, threading the map. -/
theorem processItems_append (env : ToolEnv) (pc : Bool)
    (ups : List (String × UpdateRequest)) :
    ∀ (xs ys : List CacheItem) (m : StatusMap),
      processItems env pc ups (xs ++ ys) m =
        { images := (processItems env pc ups xs m).images ++
            (processItems env pc ups ys
              (processItems env pc ups xs m).statusMap).images,
          repos := (processItems env pc ups xs m).repos ++
            (processItems env pc ups ys
              (processItems env pc ups xs m).statusMap).repos,
          errors := (processItems env pc ups xs m).errors ++
            (processItems env pc ups ys
              (processItems env pc ups xs m).statusMap).errors,
          statusMap := (processItems env pc ups ys
              (processItems env pc ups xs m).statusMap).statusMap,
          calls := (processItems env pc ups xs m).calls ++
            (processItems env pc ups ys
              (processItems env pc ups xs m).statusMap).calls } := by
  intro xs
  induction xs with
  | nil => intro ys m; simp [processItems]
  | cons x xs ih =>
    intro ys m
    cases x with
    | image rawName ref =>
      rw [List.cons_append]
      simp only [processItems, ih]
      simp
    | gitRepo rawName url b p =>
      rw [List.cons_append]
      simp only [processItems, ih]
      simp

/-- A quiet item is served from the cache: its stored status is returned and
nothing else happens. -/
theorem processItem_quiet (env : ToolEnv)
    (ups : List (String × UpdateRequest)) (m : StatusMap) (i : CacheItem)
    (hq : QuietItem ups m i) :
    ∃ s, lookupStatus m (itemKey i) = some s ∧
      processItem env false ups m i =
        { statuses := [s], errors := [], statusMap := m, calls := [] } := by
  cases i with
  | image rawName ref =>
    obtain ⟨s, hs⟩ := Option.isSome_iff_exists.mp hq
    refine ⟨s, hs, ?_⟩
    show processImageItem env rawName ref false m = _
    rw [processImageItem, hs]
    simp
  | gitRepo rawName url b p =>
    obtain ⟨hsome, hnone⟩ := hq
    obtain ⟨s, hs⟩ := Option.isSome_iff_exists.mp hsome
    refine ⟨s, hs, ?_⟩
    show processGitRepoItem env rawName url b p
      (false || (lookupUpdate ups rawName).isSome)
      ((lookupUpdate ups rawName).getD noUpdate) m = _
    rw [hnone]
    rw [processGitRepoItem]
    simp only [itemKey] at hs
    rw [hs]
    simp

/-- A run of quiet items replays the cache: statuses served in order, no
errors, no tool calls, map untouched. -/
theorem processItems_quiet (env : ToolEnv)
    (ups : List (String × UpdateRequest)) :
    ∀ (items : List CacheItem) (m : StatusMap),
      (∀ i ∈ items, QuietItem ups m i) →
      processItems env false ups items m =
        { images := (items.filter isImageItem).map
            (fun i => cachedStatusD m (itemKey i)),
          repos := (items.filter (fun i => !isImageItem i)).map
            (fun i => cachedStatusD m (itemKey i)),
          errors := [], statusMap := m, calls := [] } := by
  intro items
  induction items with
  | nil => intro m _; rfl
  | cons i items ih =>
    intro m hq
    obtain ⟨s, hs, hstep⟩ :=
      processItem_quiet env ups m i (hq i (List.mem_cons_self i items))
    have hrest := ih m (fun j hj => hq j (List.mem_cons_of_mem i hj))
    have hsd : cachedStatusD m (itemKey i) = s := by
      rw [cachedStatusD, hs]; rfl
    cases i with
    | image rawName ref =>
      simp only [processItems, hstep, hrest]
      simp [isImageItem, List.filter_cons, hsd]
    | gitRepo rawName url b p =>
      simp only [processItems, hstep, hrest]
      simp [isImageItem, List.filter_cons, hsd]

/-- A single-plan pass is the item loop under that plan's parsed markers. -/
theorem processPlans_single (env : ToolEnv) (pc : Bool) (q : CachePlan)
    (m : StatusMap) :
    processPlans env pc [q] m =
      processItems env pc (checkForUpdateAnnotations q.annotations)
        q.items m := by
  simp [processPlans]

/-- The idempotent short-circuit: unchanged hash inside the hourly window
replays the cached statuses with no tool calls and no state change. -/
theorem processCachePlans_cached (env : ToolEnv) (st : ReconcilerState)
    (now : Nat) (plans : List CachePlan)
    (hhash : calculatePlanHash plans = st.lastCachePlanHash)
    (htime : now - st.lastFullReconcile < timeHour) :
    processCachePlans env st now plans =
      ({ images := (getCurrentStatus st.currentImageStatus).1,
         repos := (getCurrentStatus st.currentImageStatus).2,
         errors := [], statusMap := st.currentImageStatus, calls := [] },
       st) := by
  have hbne : (calculatePlanHash plans != st.lastCachePlanHash) = false := by
    rw [hhash]; simp
  have hdec : decide (timeHour ≤ now - st.lastFullReconcile) = false := by
    simp only [decide_eq_false_iff_not]
    omega
  rw [processCachePlans]
  rw [hbne, hdec]
  rfl

/-- A changed hash forces a full pass and stores the new hash. -/
theorem processCachePlans_changed (env : ToolEnv) (st : ReconcilerState)
    (now : Nat) (plans : List CachePlan)
    (hch : calculatePlanHash plans ≠ st.lastCachePlanHash) :
    processCachePlans env st now plans =
      (processPlans env true plans st.currentImageStatus,
       { lastFullReconcile := now,
         lastCachePlanHash := calculatePlanHash plans,
         currentImageStatus :=
           (processPlans env true plans st.currentImageStatus).statusMap }) := by
  have hbne : (calculatePlanHash plans != st.lastCachePlanHash) = true :=
    bne_iff_ne.mpr hch
  rw [processCachePlans, hbne]
  simp

/-- An unchanged hash past the hourly cadence forces a full pass with
planChanged false, keeping the stored hash. -/
theorem processCachePlans_hourly (env : ToolEnv) (st : ReconcilerState)
    (now : Nat) (plans : List CachePlan)
    (hhash : calculatePlanHash plans = st.lastCachePlanHash)
    (htime : timeHour ≤ now - st.lastFullReconcile) :
    processCachePlans env st now plans =
      (processPlans env false plans st.currentImageStatus,
       { lastFullReconcile := now,
         lastCachePlanHash := st.lastCachePlanHash,
         currentImageStatus :=
           (processPlans env false plans st.currentImageStatus).statusMap }) := by
  have hbne : (calculatePlanHash plans != st.lastCachePlanHash) = false := by
    rw [hhash]
    simp
  have hdec : decide (timeHour ≤ now - st.lastFullReconcile) = true :=
    decide_eq_true htime
  rw [processCachePlans, hbne, hdec]
  simp

/-- Folding fresh, pairwise-distinct insertions appends the entries in
order. -/
theorem foldl_insert_fresh (env : ToolEnv)
    (ups : List (String × UpdateRequest)) :
    ∀ (items : List CacheItem) (m : StatusMap),
      (∀ i ∈ items, itemKey i ∉ m.map Prod.fst) →
      (items.map itemKey).Nodup →
      items.foldl (fun acc i =>
          insertStatus acc (itemKey i) (itemStatusFull env ups i)) m =
        m ++ items.map (fun i => (itemKey i, itemStatusFull env ups i)) := by
  intro items
  induction items with
  | nil => intro m _ _; simp
  | cons i items ih =>
    intro m hfresh hnodup
    rw [List.foldl_cons,
      insertStatus_append _ m _ (hfresh i (List.mem_cons_self i items))]
    rw [List.map_cons, List.nodup_cons] at hnodup
    rw [ih (m ++ [(itemKey i, itemStatusFull env ups i)]) ?_ hnodup.2]
    · rw [List.map_cons, List.append_assoc]
      rfl
    · intro j hj
      rw [List.map_append]
      intro hmem
      rcases List.mem_append.mp hmem with hmem | hmem
      · exact hfresh j (List.mem_cons_of_mem i hj) hmem
      · simp only [List.map_cons, List.map_nil, List.mem_singleton] at hmem
        exact hnodup.1 (hmem ▸ List.mem_map_of_mem itemKey hj)

/-- Any string of the form a#b contains the # separator. -/
theorem strContains_hash (a b : String) :
    strContains (a ++ "#" ++ b) "#" = true := by
  rw [strContains, List.any_eq_true]
  refine ⟨a.length, ?_, ?_⟩
  · rw [List.mem_range]
    have h1 : (a ++ "#" ++ b).length = a.length + 1 + b.length := by
      rw [String.length_append, String.length_append]
      rfl
    omega
  · have hdata : (a ++ "#" ++ b).data = a.data ++ ('#' :: b.data) := by
      rw [String.data_append, String.data_append, List.append_assoc]
      rfl
    rw [hdata]
    have hlen : a.length = a.data.length := rfl
    rw [hlen, List.drop_left]
    simp [List.isPrefixOf]

/-- An image status entry keeps the item's reference. -/
theorem imageStatusFull_ref (env : ToolEnv) (rn ref : String) :
    (imageStatusFull env rn ref).ref = ref := by
  rw [imageStatusFull]
  split <;> rfl

/-- A cached image entry whose ref trips no heuristic substring is
classified as an image. -/
theorem isRepoEntry_image_free {env : ToolEnv} {rn ref : String}
    (hfree : imageRefHeuristicFree ref = true) :
    isRepoEntry ref (imageStatusFull env rn ref) = false := by
  rw [isRepoEntry, imageStatusFull_ref]
  rw [imageRefHeuristicFree, Bool.not_eq_true'] at hfree
  exact hfree

/-- A git-repo entry is always classified as a repo: its key contains #. -/
theorem isRepoEntry_repoKey (a b : String) (st : ItemStatus) :
    isRepoEntry (a ++ "#" ++ b) st = true := by
  rw [isRepoEntry, strContains_hash]
  rfl

/-- getCurrentStatus splits over list append. -/
theorem getCurrentStatus_append (a b : StatusMap) :
    getCurrentStatus (a ++ b) =
      ((getCurrentStatus a).1 ++ (getCurrentStatus b).1,
       (getCurrentStatus a).2 ++ (getCurrentStatus b).2) := by
  simp [getCurrentStatus, List.filterMap_append]

/-- Replaying the entries a changed-plan pass stored reproduces that pass's
image and repo lists, provided no image ref trips the git heuristic. -/
theorem getCurrentStatus_entries (env : ToolEnv)
    (ups : List (String × UpdateRequest)) :
    ∀ (items : List CacheItem),
      (∀ rn ref, CacheItem.image rn ref ∈ items →
        imageRefHeuristicFree ref = true) →
      getCurrentStatus (items.map (fun i =>
          (itemKey i, itemStatusFull env ups i))) =
        ((items.filter isImageItem).map (itemStatusFull env ups),
         (items.filter (fun i => !isImageItem i)).map
           (itemStatusFull env ups)) := by
  intro items
  induction items with
  | nil => intro _; rfl
  | cons i items ih =>
    intro hfree
    have hrest := ih (fun rn ref hmem =>
      hfree rn ref (List.mem_cons_of_mem i hmem))
    cases i with
    | image rawName ref =>
      have hf := hfree rawName ref (List.mem_cons_self _ _)
      have hcl : isRepoEntry (itemKey (.image rawName ref))
          (itemStatusFull env ups (.image rawName ref)) = false := by
        rw [show itemKey (.image rawName ref) = ref from rfl]
        rw [show itemStatusFull env ups (.image rawName ref) =
          imageStatusFull env rawName ref from rfl]
        exact isRepoEntry_image_free hf
      rw [List.map_cons]
      rw [getCurrentStatus, List.filterMap_cons, List.filterMap_cons]
      simp only [hcl, Bool.false_eq_true, if_false]
      rw [getCurrentStatus] at hrest
      rw [Prod.mk.injEq] at hrest
      simp [List.filter_cons, isImageItem, hrest.1, hrest.2]
    | gitRepo rawName url b p =>
      have hcl : isRepoEntry (itemKey (.gitRepo rawName url b p))
          (itemStatusFull env ups (.gitRepo rawName url b p)) = true := by
        rw [show itemKey (.gitRepo rawName url b p) =
          url ++ "#" ++ (repoFields rawName url b p).2.1 from rfl]
        exact isRepoEntry_repoKey _ _ _
      rw [List.map_cons]
      rw [getCurrentStatus, List.filterMap_cons, List.filterMap_cons]
      simp only [hcl, if_true]
      rw [getCurrentStatus] at hrest
      rw [Prod.mk.injEq] at hrest
      simp [List.filter_cons, isImageItem, hrest.1, hrest.2]

/-- C5 (amended): on an unchanged-plan pass an image item's cached status is
reused — and the Image Puller skipped — whenever any cached status exists
for that exact reference, regardless of its value (ready, failed or
pulling); the puller runs exactly when the plan changed or no cached status
exists. -/
theorem imageCacheReuse (env : ToolEnv) (rn ref : String) (pc : Bool)
    (m : StatusMap) :
    ((processImageItem env rn ref pc m).calls = [] ↔
      (pc = false ∧ (lookupStatus m ref).isSome = true)) ∧
    ∀ s, lookupStatus m ref = some s → pc = false →
      processImageItem env rn ref pc m =
        { statuses := [s], errors := [], statusMap := m, calls := [] } := by
  constructor
  · cases hl : lookupStatus m ref with
    | some s =>
      cases pc with
      | true => simp [processImageItem, hl, pullImageItem]
      | false => simp [processImageItem, hl]
    | none =>
      cases pc with
      | true => simp [processImageItem, hl, pullImageItem]
      | false => simp [processImageItem, hl, pullImageItem]
  · intro s hs hpc
    subst hpc
    rw [processImageItem, hs]
    simp

/-- C5 counterexample: plan unchanged, cached status "failed" — the source
reuses the failed entry and never invokes the Image Puller, contrary to the
claim that a status other than "ready" is re-pulled on that pass. -/
theorem imageFailedStatusReused :
    lookupStatus [("img", wFailedStatus)] "img" = some wFailedStatus ∧
    wFailedStatus.status = "failed" ∧
    ToolCall.crictlPull "img" ∉
      (processImageItem wEnvAllOk "img" "img" false
        [("img", wFailedStatus)]).calls ∧
    (processImageItem wEnvAllOk "img" "img" false
      [("img", wFailedStatus)]).statuses = [wFailedStatus] := by
  decide

/-- Witness for imageCacheReuse at the cached-failed-entry input. -/
theorem imageCacheReuse_witness :
    processImageItem wEnvAllOk "img" "img" false [("img", wFailedStatus)] =
      { statuses := [wFailedStatus], errors := [],
        statusMap := [("img", wFailedStatus)], calls := [] } :=
  (imageCacheReuse wEnvAllOk "img" "img" false [("img", wFailedStatus)]).2
    wFailedStatus (by decide) rfl

/-- C10: during a short-circuited pass getCurrentStatus classifies entries
by substring heuristics, so a cached image whose reference contains
github.com, gitlab.com or .git is published in the gitRepos list and not in
the images list — although a changed-plan full pass processes it as an
image, placing its status in the images list. -/
theorem cachedHeuristicMisclassifies (m : StatusMap) (k : String)
    (s : ItemStatus) (hmem : (k, s) ∈ m)
    (hgit : strContains s.ref "github.com" = true ∨
      strContains s.ref "gitlab.com" = true ∨
      strContains s.ref ".git" = true) :
    s ∈ (getCurrentStatus m).2 ∧
    s ∉ (getCurrentStatus m).1 ∧
    ∀ (env : ToolEnv) (ups : List (String × UpdateRequest))
      (items : List CacheItem) (m' : StatusMap) (rn : String),
      CacheItem.image rn s.ref ∈ items →
      imageStatusFull env rn s.ref ∈
        (processItems env true ups items m').images := by
  have hrepo : ∀ k' : String, isRepoEntry k' s = true := by
    intro k'
    rw [isRepoEntry]
    rcases hgit with h | h | h <;> simp [h]
  refine ⟨?_, ?_, ?_⟩
  · rw [getCurrentStatus]
    apply List.mem_filterMap.mpr
    refine ⟨(k, s), hmem, ?_⟩
    rw [hrepo k]
    rfl
  · rw [getCurrentStatus]
    intro hmem1
    obtain ⟨⟨k', s'⟩, hmem', heq⟩ := List.mem_filterMap.mp hmem1
    by_cases hr : isRepoEntry k' s' = true
    · rw [if_pos hr] at heq
      exact Option.noConfusion heq
    · rw [if_neg hr] at heq
      obtain rfl := Option.some.inj heq
      exact hr (hrepo k')
  · intro env ups items m' rn hitem
    rw [processItems_full]
    exact List.mem_map.mpr ⟨CacheItem.image rn s.ref,
      List.mem_filter.mpr ⟨hitem, rfl⟩, rfl⟩

/-- Witness for cachedHeuristicMisclassifies at the github.com image. -/
theorem cachedHeuristicMisclassifies_witness :
    wGhStatus ∈ (getCurrentStatus wMapG).2 ∧
    wGhStatus ∉ (getCurrentStatus wMapG).1 ∧
    imageStatusFull wEnvAllOk "gh" wGhStatus.ref ∈
      (processItems wEnvAllOk true [] [CacheItem.image "gh" wGhStatus.ref]
        []).images := by
  have h := cachedHeuristicMisclassifies wMapG "github.com/foo/bar" wGhStatus
    (by decide) (Or.inl (by decide))
  exact ⟨h.1, h.2.1, h.2.2 wEnvAllOk [] [CacheItem.image "gh" wGhStatus.ref]
    [] "gh" (List.mem_cons_self _ _)⟩

/-- C8 (amended): cloneGitRepo branches on existence of the target directory
(not of a .git marker): it goes straight to a fresh shallow clone exactly
when the directory does not exist; when it exists it first updates in place
(force: fetch then hard-reset; otherwise plain pull), and only on failure of
that in-place update deletes the directory and falls back to a fresh
clone. -/
theorem cloneGitRepo_branching (env : ToolEnv) (url branch name : String)
    (force : Bool) :
    ((cloneGitRepo env url branch name force).2.head? =
        some (.gitClone url branch (repoDir name)) ↔
      env.dirExists (repoDir name) = false) ∧
    (env.dirExists (repoDir name) = true → force = true →
      (cloneGitRepo env url branch name force).2.head? =
        some (.gitFetch (repoDir name) branch)) ∧
    (env.dirExists (repoDir name) = true → force = false →
      (cloneGitRepo env url branch name force).2.head? =
        some (.gitPull (repoDir name) branch)) ∧
    (env.dirExists (repoDir name) = true → force = true →
      env.fetchOk (repoDir name) branch = true →
      env.resetOk (repoDir name) branch = true →
      cloneGitRepo env url branch name force =
        (true, [.gitFetch (repoDir name) branch,
                .gitReset (repoDir name) branch])) ∧
    (env.dirExists (repoDir name) = true → force = false →
      env.gitPullOk (repoDir name) branch = true →
      cloneGitRepo env url branch name force =
        (true, [.gitPull (repoDir name) branch])) ∧
    (env.dirExists (repoDir name) = true →
      (force = true ∧ (env.fetchOk (repoDir name) branch = false ∨
          env.resetOk (repoDir name) branch = false)) ∨
        (force = false ∧ env.gitPullOk (repoDir name) branch = false) →
      ToolCall.removeDir (repoDir name) ∈
          (cloneGitRepo env url branch name force).2 ∧
        (cloneGitRepo env url branch name force).2.getLast? =
          some (.gitClone url branch (repoDir name)) ∧
        (cloneGitRepo env url branch name force).1 =
          env.cloneOk url branch) ∧
    (env.dirExists (repoDir name) = false →
      cloneGitRepo env url branch name force =
        (env.cloneOk url branch, [.gitClone url branch (repoDir name)])) := by
  cases hd : env.dirExists (repoDir name) <;>
    cases force <;>
      cases hf : env.fetchOk (repoDir name) branch <;>
        cases hr : env.resetOk (repoDir name) branch <;>
          cases hp : env.gitPullOk (repoDir name) branch <;>
            simp [cloneGitRepo, hd, hf, hr, hp]

/-- C8 counterexample: the target directory exists but holds no .git marker;
the claim requires going straight to a fresh clone, yet the source first
attempts an in-place git pull there. -/
theorem cloneGitRepo_no_marker_pulls :
    wEnvNoGit.hasGit (repoDir "r") = false ∧
    (cloneGitRepo wEnvNoGit "u" "main" "r" false).2.head? =
      some (.gitPull (repoDir "r") "main") ∧
    ¬ (cloneGitRepo wEnvNoGit "u" "main" "r" false).2.head? =
      some (.gitClone "u" "main" (repoDir "r")) := by
  decide

/-- Witness for cloneGitRepo_branching: healthy existing checkout with
force, giving exactly fetch then hard-reset. -/
theorem cloneGitRepo_branching_witness :
    cloneGitRepo wEnvRepo "u" "main" "r" true =
      (true, [.gitFetch (repoDir "r") "main",
              .gitReset (repoDir "r") "main"]) :=
  (cloneGitRepo_branching wEnvRepo "u" "main" "r" true).2.2.2.1 rfl rfl rfl rfl

/-- C6 (amended): with an unchanged hash inside the hourly window the pass
performs zero pull/clone tool invocations, mutates no reconciler state, and
returns the cached per-item statuses (with an empty error list), partitioned
by the key/ref heuristic; a second call on an unchanged single plan inside
the window returns image and git-repo status lists identical to the first
(full) call's, provided the plan's item keys are distinct and no image
reference contains a git-heuristic substring. -/
theorem reconcileIdempotentCadence (env : ToolEnv) (st : ReconcilerState)
    (now : Nat) (plans : List CachePlan)
    (hhash : calculatePlanHash plans = st.lastCachePlanHash)
    (htime : now - st.lastFullReconcile < timeHour) :
    processCachePlans env st now plans =
      ({ images := (getCurrentStatus st.currentImageStatus).1,
         repos := (getCurrentStatus st.currentImageStatus).2,
         errors := [], statusMap := st.currentImageStatus, calls := [] },
       st) ∧
    (∀ (st0 : ReconcilerState) (now1 now2 : Nat) (q : CachePlan),
      st0.currentImageStatus = [] →
      calculatePlanHash [q] ≠ st0.lastCachePlanHash →
      (q.items.map itemKey).Nodup →
      (∀ rn ref, CacheItem.image rn ref ∈ q.items →
        imageRefHeuristicFree ref = true) →
      now2 - now1 < timeHour →
      (processCachePlans env (processCachePlans env st0 now1 [q]).2 now2
          [q]).1.images = (processCachePlans env st0 now1 [q]).1.images ∧
      (processCachePlans env (processCachePlans env st0 now1 [q]).2 now2
          [q]).1.repos = (processCachePlans env st0 now1 [q]).1.repos ∧
      (processCachePlans env (processCachePlans env st0 now1 [q]).2 now2
          [q]).1.calls = [] ∧
      (processCachePlans env (processCachePlans env st0 now1 [q]).2 now2
          [q]).2 = (processCachePlans env st0 now1 [q]).2) := by
  refine ⟨processCachePlans_cached env st now plans hhash htime, ?_⟩
  intro st0 now1 now2 q hempty hch hnodup hfree htime2
  have hfirst := processCachePlans_changed env st0 now1 [q] hch
  have hpi : processPlans env true [q] st0.currentImageStatus =
      processItems env true (checkForUpdateAnnotations q.annotations)
        q.items [] := by
    rw [processPlans_single, hempty]
  have hfull := processItems_full env
    (checkForUpdateAnnotations q.annotations) q.items []
  have hmap : (processItems env true
      (checkForUpdateAnnotations q.annotations) q.items []).statusMap =
      q.items.map (fun i => (itemKey i,
        itemStatusFull env (checkForUpdateAnnotations q.annotations) i)) := by
    rw [hfull]
    show q.items.foldl _ ([] : StatusMap) = _
    rw [foldl_insert_fresh env (checkForUpdateAnnotations q.annotations)
      q.items [] (by intro i _; simp) hnodup]
    rfl
  have hsecond := processCachePlans_cached env
    (processCachePlans env st0 now1 [q]).2 now2 [q] ?_ ?_
  · have hgcs := getCurrentStatus_entries env
      (checkForUpdateAnnotations q.annotations) q.items hfree
    rw [Prod.mk.injEq] at hgcs
    rw [hsecond]
    refine ⟨?_, ?_, rfl, rfl⟩
    · rw [hfirst]
      show (getCurrentStatus
          (processPlans env true [q] st0.currentImageStatus).statusMap).1 =
        (processPlans env true [q] st0.currentImageStatus).images
      rw [hpi, hmap, hgcs.1, hfull]
    · rw [hfirst]
      show (getCurrentStatus
          (processPlans env true [q] st0.currentImageStatus).statusMap).2 =
        (processPlans env true [q] st0.currentImageStatus).repos
      rw [hpi, hmap, hgcs.2, hfull]
  · rw [hfirst]
  · rw [hfirst]
    simpa using htime2

/-- C6 counterexample: an image whose reference contains github.com ends up
in the images list on the first (full) call but in the gitRepos list on the
second (cached) call, so the second call's status is not identical to the
first. -/
theorem reconcileSecondCallDiffers :
    (processCachePlans wEnvAllOk
        (processCachePlans wEnvAllOk initialReconcilerState 0 [wPlanGit]).2
        10 [wPlanGit]).1.images ≠
      (processCachePlans wEnvAllOk initialReconcilerState 0
        [wPlanGit]).1.images := by
  decide

/-- Witness for reconcileIdempotentCadence: a state that already absorbed
the one-image plan, queried again 100 ticks later, plus the two-call
identity on that plan from a fresh state. -/
theorem reconcileIdempotentCadence_witness :
    processCachePlans wEnvAllOk wStC6 200 [wPlanImg] =
      ({ images := (getCurrentStatus wStC6.currentImageStatus).1,
         repos := (getCurrentStatus wStC6.currentImageStatus).2,
         errors := [], statusMap := wStC6.currentImageStatus, calls := [] },
       wStC6) ∧
    (processCachePlans wEnvAllOk
        (processCachePlans wEnvAllOk initialReconcilerState 5 [wPlanImg]).2
        50 [wPlanImg]).1.images =
      (processCachePlans wEnvAllOk initialReconcilerState 5
        [wPlanImg]).1.images := by
  have h := reconcileIdempotentCadence wEnvAllOk wStC6 200 [wPlanImg] rfl
    (by decide)
  refine ⟨h.1, ?_⟩
  have h2 := h.2 initialReconcilerState 5 50 wPlanImg rfl (by decide)
    (by decide) ?_ (by decide)
  · exact h2.1
  · intro rn ref hmem
    have heq : CacheItem.image rn ref = CacheItem.image "i" "quay-io/img" := by
      simpa [wPlanImg] using hmem
    obtain ⟨h1, h2⟩ := CacheItem.image.inj heq
    subst h1
    subst h2
    decide

/-- C7: per-item failure isolation on a changed-plan pass: every declared
item is processed and its final status published (a failure does not abort
the loop); a failing item ends failed with present false and a message
naming it in the aggregate error list; an item whose tool succeeds still
ends ready and present. -/
theorem itemFailureIsolation (env : ToolEnv)
    (ups : List (String × UpdateRequest)) (items : List CacheItem)
    (m : StatusMap) :
    (∀ rn ref, CacheItem.image rn ref ∈ items →
      imageStatusFull env rn ref ∈
        (processItems env true ups items m).images ∧
      (env.pullOk ref = false →
        (imageStatusFull env rn ref).status = "failed" ∧
        (imageStatusFull env rn ref).present = false ∧
        ("Failed to pull image " ++ ref ++ ": " ++ env.pullErr ref) ∈
          (processItems env true ups items m).errors) ∧
      (env.pullOk ref = true →
        (imageStatusFull env rn ref).status = "ready" ∧
        (imageStatusFull env rn ref).present = true)) ∧
    (∀ rn url b p, CacheItem.gitRepo rn url b p ∈ items →
      itemStatusFull env ups (.gitRepo rn url b p) ∈
        (processItems env true ups items m).repos ∧
      ((cloneGitRepo env url (repoFields rn url b p).2.1
          (repoFields rn url b p).2.2 (urOf ups rn).force).1 = false →
        (itemStatusFull env ups (.gitRepo rn url b p)).status = "failed" ∧
        (itemStatusFull env ups (.gitRepo rn url b p)).present = false ∧
        ("Failed to clone git repo " ++ url ++ " (branch: " ++
            (repoFields rn url b p).2.1 ++ "): " ++ env.cloneErr url) ∈
          (processItems env true ups items m).errors) ∧
      ((cloneGitRepo env url (repoFields rn url b p).2.1
          (repoFields rn url b p).2.2 (urOf ups rn).force).1 = true →
        (itemStatusFull env ups (.gitRepo rn url b p)).status = "ready" ∧
        (itemStatusFull env ups (.gitRepo rn url b p)).present = true)) := by
  rw [processItems_full]
  constructor
  · intro rn ref hmem
    refine ⟨?_, ?_, ?_⟩
    · exact List.mem_map.mpr ⟨.image rn ref,
        List.mem_filter.mpr ⟨hmem, rfl⟩, rfl⟩
    · intro hfail
      refine ⟨?_, ?_, ?_⟩
      · rw [imageStatusFull]; simp [hfail]
      · rw [imageStatusFull]; simp [hfail]
      · apply List.mem_flatten.mpr
        refine ⟨itemErrorsFull env ups (.image rn ref),
          List.mem_map_of_mem _ hmem, ?_⟩
        rw [itemErrorsFull]
        simp [hfail]
    · intro hok
      constructor
      · rw [imageStatusFull]; simp [hok]
      · rw [imageStatusFull]; simp [hok]
  · intro rn url b p hmem
    refine ⟨?_, ?_, ?_⟩
    · exact List.mem_map.mpr ⟨.gitRepo rn url b p,
        List.mem_filter.mpr ⟨hmem, rfl⟩, rfl⟩
    · intro hfail
      refine ⟨?_, ?_, ?_⟩
      · rw [itemStatusFull]; simp [hfail]
      · rw [itemStatusFull]; simp [hfail]
      · apply List.mem_flatten.mpr
        refine ⟨itemErrorsFull env ups (.gitRepo rn url b p),
          List.mem_map_of_mem _ hmem, ?_⟩
        rw [itemErrorsFull]
        simp [hfail]
    · intro hok
      constructor
      · rw [itemStatusFull]; simp [hok]
      · rw [itemStatusFull]; simp [hok]

/-- Witness for itemFailureIsolation: clone of repo u fails with a network
error while image img1 still pulls to ready in the same pass. -/
theorem itemFailureIsolation_witness :
    imageStatusFull wEnvCloneFails "" "img1" ∈
      (processItems wEnvCloneFails true [] wItemsC7 []).images ∧
    (imageStatusFull wEnvCloneFails "" "img1").status = "ready" ∧
    itemStatusFull wEnvCloneFails [] (.gitRepo "r" "u" none none) ∈
      (processItems wEnvCloneFails true [] wItemsC7 []).repos ∧
    (itemStatusFull wEnvCloneFails []
      (.gitRepo "r" "u" none none)).status = "failed" ∧
    (itemStatusFull wEnvCloneFails []
      (.gitRepo "r" "u" none none)).present = false ∧
    ("Failed to clone git repo " ++ "u" ++ " (branch: " ++
        (repoFields "r" "u" none none).2.1 ++ "): " ++
        wEnvCloneFails.cloneErr "u") ∈
      (processItems wEnvCloneFails true [] wItemsC7 []).errors := by
  have h := itemFailureIsolation wEnvCloneFails [] wItemsC7 []
  have h1 := h.1 "" "img1" (by decide)
  have h2 := h.2 "r" "u" none none (by decide)
  have hfail := h2.2.1 (by decide)
  exact ⟨h1.1, (h1.2.2 rfl).1, h2.1, hfail.1, hfail.2.1, hfail.2.2⟩

/-- C9 (amended): when a force-update marker names repo R while the plan
hash is unchanged, then on the next FULL pass (the hourly cadence having
elapsed) R is re-synced via fetch plus hard-reset to origin/branch and no
other cached item is re-synced: the pass performs exactly those two git
invocations, and R's stored status ends ready. -/
theorem forceUpdateResync (env : ToolEnv) (st : ReconcilerState)
    (now : Nat) (q : CachePlan) (R ts url : String)
    (b p : Option String) (pre post : List CacheItem)
    (hitems : q.items = pre ++ CacheItem.gitRepo R url b p :: post)
    (hhash : calculatePlanHash [q] = st.lastCachePlanHash)
    (htime : timeHour ≤ now - st.lastFullReconcile)
    (hups : checkForUpdateAnnotations q.annotations =
      [(R, { timestamp := ts, force := true })])
    (hquiet : ∀ i ∈ pre ++ post,
      QuietItem [(R, { timestamp := ts, force := true })]
        st.currentImageStatus i)
    (hdir : env.dirExists (repoDir (repoFields R url b p).2.2) = true)
    (hfetch : env.fetchOk (repoDir (repoFields R url b p).2.2)
      (repoFields R url b p).2.1 = true)
    (hreset : env.resetOk (repoDir (repoFields R url b p).2.2)
      (repoFields R url b p).2.1 = true) :
    (processCachePlans env st now [q]).1.calls =
      [.gitFetch (repoDir (repoFields R url b p).2.2)
         (repoFields R url b p).2.1,
       .gitReset (repoDir (repoFields R url b p).2.2)
         (repoFields R url b p).2.1] ∧
    ∃ s, lookupStatus (processCachePlans env st now [q]).2.currentImageStatus
        (url ++ "#" ++ (repoFields R url b p).2.1) = some s ∧
      s.status = "ready" := by
  have hfull := processCachePlans_hourly env st now [q] hhash htime
  have hpp : processPlans env false [q] st.currentImageStatus =
      processItems env false [(R, { timestamp := ts, force := true })]
        q.items st.currentImageStatus := by
    rw [processPlans_single, hups]
  -- the marked repo item syncs via fetch plus hard-reset
  have hstep : processItem env false
      [(R, { timestamp := ts, force := true })] st.currentImageStatus
      (.gitRepo R url b p) =
      { statuses := [readyRepoStatus url (repoFields R url b p).1
          (repoFields R url b p).2.1],
        errors := [],
        statusMap := insertStatus st.currentImageStatus
          (url ++ "#" ++ (repoFields R url b p).2.1)
          (readyRepoStatus url (repoFields R url b p).1
            (repoFields R url b p).2.1),
        calls := [.gitFetch (repoDir (repoFields R url b p).2.2)
            (repoFields R url b p).2.1,
          .gitReset (repoDir (repoFields R url b p).2.2)
            (repoFields R url b p).2.1] } := by
    have hlu : lookupUpdate [(R, { timestamp := ts, force := true })] R =
        some { timestamp := ts, force := true } := by
      simp [lookupUpdate]
    show processGitRepoItem env R url b p
      (false || (lookupUpdate [(R, { timestamp := ts, force := true })]
        R).isSome)
      ((lookupUpdate [(R, { timestamp := ts, force := true })] R).getD
        noUpdate) st.currentImageStatus = _
    rw [hlu]
    rw [processGitRepoItem]
    cases hl : lookupStatus st.currentImageStatus
        (url ++ "#" ++ (repoFields R url b p).2.1) with
    | some ex =>
      simp only [Option.isSome_some, Bool.or_true, if_true]
      rw [syncGitRepoItem]
      simp [cloneGitRepo, hdir, hfetch, hreset, readyRepoStatus]
    | none =>
      rw [syncGitRepoItem]
      simp [cloneGitRepo, hdir, hfetch, hreset, readyRepoStatus]
  -- the items before R are all served from the cache
  have hpre := processItems_quiet env
    [(R, { timestamp := ts, force := true })] pre st.currentImageStatus
    (fun i hi => hquiet i (List.mem_append_left post hi))
  -- the items after R stay quiet in the map extended with R's new entry
  have hpost := processItems_quiet env
    [(R, { timestamp := ts, force := true })] post
    (insertStatus st.currentImageStatus
      (url ++ "#" ++ (repoFields R url b p).2.1)
      (readyRepoStatus url (repoFields R url b p).1
        (repoFields R url b p).2.1))
    (fun i hi => by
      have hq := hquiet i (List.mem_append_right pre hi)
      cases i with
      | image rawName ref =>
        show (lookupStatus _ ref).isSome = true
        rw [lookupStatus_insert]
        by_cases hk : ref = url ++ "#" ++ (repoFields R url b p).2.1
        · rw [if_pos hk]; rfl
        · rw [if_neg hk]; exact hq
      | gitRepo rawName u2 b2 p2 =>
        obtain ⟨hq1, hq2⟩ := hq
        refine ⟨?_, hq2⟩
        rw [lookupStatus_insert]
        by_cases hk : itemKey (.gitRepo rawName u2 b2 p2) =
            url ++ "#" ++ (repoFields R url b p).2.1
        · rw [if_pos hk]; rfl
        · rw [if_neg hk]; exact hq1)
  have happ := processItems_append env false
    [(R, { timestamp := ts, force := true })] pre
    (CacheItem.gitRepo R url b p :: post) st.currentImageStatus
  constructor
  · rw [hfull]
    show (processPlans env false [q] st.currentImageStatus).calls = _
    rw [hpp, hitems, happ, hpre]
    simp only [processItems, hstep, hpost]
    simp
  · refine ⟨readyRepoStatus url (repoFields R url b p).1
      (repoFields R url b p).2.1, ?_, rfl⟩
    rw [hfull]
    show lookupStatus
      (processPlans env false [q] st.currentImageStatus).statusMap _ = _
    rw [hpp, hitems, happ, hpre]
    simp only [processItems, hstep, hpost]
    rw [lookupStatus_insert]
    simp

/-- C9 counterexample: the marker for R is set and the hash unchanged, yet
the next pass (10 ticks later, inside the cadence window) performs zero git
invocations — R is not re-synced on that pass. -/
theorem forceUpdateMarker_withinWindow_noResync :
    checkForUpdateAnnotations wPlanC9.annotations =
      [("R", { timestamp := "t1", force := true })] ∧
    (processCachePlans wEnvRepo wStC9 10 [wPlanC9]).1.calls = [] ∧
    (processCachePlans wEnvRepo wStC9 10 [wPlanC9]).2 = wStC9 := by
  decide

/-- Witness for forceUpdateResync: the marked plan processed at the hourly
cadence re-syncs R via fetch plus hard-reset. -/
theorem forceUpdateResync_witness :
    (processCachePlans wEnvRepo wStC9 3600 [wPlanC9]).1.calls =
      [.gitFetch (repoDir (repoFields "R" "u" none none).2.2)
         (repoFields "R" "u" none none).2.1,
       .gitReset (repoDir (repoFields "R" "u" none none).2.2)
         (repoFields "R" "u" none none).2.1] ∧
    ∃ s, lookupStatus
        (processCachePlans wEnvRepo wStC9 3600 [wPlanC9]).2.currentImageStatus
        ("u" ++ "#" ++ (repoFields "R" "u" none none).2.1) = some s ∧
      s.status = "ready" :=
  forceUpdateResync wEnvRepo wStC9 3600 wPlanC9 "R" "t1" "u" none none [] []
    rfl rfl (by decide) (by decide) (by intro i hi; cases hi) rfl rfl rfl

end Canhazgpu
